import Mathlib

/-!
Verification of the `rox` front end (scanner + expression parser).

The Rust sources `src/scanner.rs` and `src/parser.rs` are embedded shallowly:

* `Scanner` state becomes an explicit `ScanState` record.  The byte indices
  `start`/`current` that the Rust code maintains with `char::len_utf8` are kept
  as byte counters, and the Rust string slicing `&self.source[start..current]`
  (which panics when an index is out of bounds or not on a UTF-8 character
  boundary) is modelled by `utf8Slice`, which returns `none` exactly in the
  panicking cases; a `none` is surfaced as the distinguished error
  `ScanErr.slicePanic`.
* The `i32` line counter is modelled by `Int` (inputs with at least 2^31
  newlines, where the Rust counter would overflow, are outside every statement
  below).
* Rust's Unicode character classes (`char::is_whitespace`,
  `unicode_xid::is_xid_start`/`is_xid_continue`) are modelled by their ASCII
  fragments; every theorem below depends only on facts — disjointness of the
  classes from digits, quotes, punctuation and each other — that hold of the
  full Unicode tables as well.
* The parser's mutual recursion is embedded with an explicit fuel parameter;
  exhaustion is the distinguished result `PErr.noFuel`, proved unreachable for
  the fuel `parse` supplies.
* The parser's `panic!`/`expect` calls are modelled as `PErr.perr` errors.
* Numbers: the parser converts a lexeme with Rust's `str::parse::<f64>`.  This
  is modelled by `parseNumber`, exact rational parsing of the digit/decimal
  lexeme grammar the scanner emits; `f64` rounding is not modelled (all
  numerals appearing in statements below are exactly representable).
-/

set_option maxHeartbeats 1000000

deriving instance DecidableEq for Except

namespace Rox

/-- Token kinds.  Union of the `TokenType` enumeration of `src/scanner.rs` and
the additional variant names that `src/parser.rs` (a draft written against a
renamed enumeration) references: `NotEqual`, `Not`, `Times`, `Divide`,
`NumLiteral`, `StrLiteral`. -/
inductive TokenType where
  | LeftParen | RightParen | LeftBrace | RightBrace | Comma | Dot | Minus | Plus
  | Semicolon | Slash | Star
  | Bang | BangEqual | Equal | EqualEqual | Greater | GreaterEqual | Less | LessEqual
  | Identifier | StringLiteral | NumberLiteral
  | And | Class | Else | False | Fun | For | If | Nil | Or | Print | Return
  | Super | This | True | Var | While
  | Whitespace | Eof
  | NotEqual | Not | Times | Divide | NumLiteral | StrLiteral
deriving DecidableEq, Repr

/-- A scanned token: kind, exact source substring, 1-based line (`i32` in the
source, modelled by `Int`). -/
structure Token where
  kind : TokenType
  lexeme : String
  line : Int
deriving DecidableEq, Repr

/-- Errors a scan can produce.  `msg` models `Err(&'static str)`;
`slicePanic` models a panic of `&self.source[self.start..self.current]` on an
out-of-bounds or non-boundary byte index; `noFuel` is the artefact of the fuel
encoding of the scan loop (proved unreachable below). -/
inductive ScanErr where
  | msg (s : String)
  | slicePanic
  | noFuel
deriving DecidableEq, Repr

/-- Total UTF-8 byte length of a character list (`str::len` on the slice). -/
def utf8Len : List Char → Nat
  | [] => 0
  | c :: r => c.utf8Size + utf8Len r

/-- The character position corresponding to byte offset `b` of `src`:
`some k` when `b` is the byte length of the first `k` characters (a UTF-8
character boundary), `none` otherwise. -/
def charIdxAt : List Char → Nat → Option Nat
  | _, 0 => some 0
  | [], _ + 1 => none
  | c :: rest, b + 1 =>
    if c.utf8Size ≤ b + 1 then
      (charIdxAt rest (b + 1 - c.utf8Size)).map (· + 1)
    else
      none

/-- Model of Rust string slicing `&s[a..b]`: returns the characters between
byte offsets `a` and `b` when both are character boundaries and `a ≤ b`, and
`none` (a Rust panic) otherwise. -/
def utf8Slice (src : List Char) (a b : Nat) : Option (List Char) :=
  match charIdxAt src a, charIdxAt src b with
  | some i, some j => if i ≤ j then some ((src.take j).drop i) else none
  | _, _ => none

/-- Models `char::is_whitespace` (Unicode `White_Space`), restricted to its
ASCII fragment. -/
def rustWhitespace (c : Char) : Bool :=
  c = ' ' || c = '\t' || c = '\n' || c = '\r' || c = '\x0b' || c = '\x0c'

/-- Models `char::is_ascii_digit` (`'0'..='9'`, code points 48–57). -/
def isAsciiDigit (c : Char) : Bool :=
  48 ≤ c.toNat && c.toNat ≤ 57

/-- Models `unicode_xid::UnicodeXID::is_xid_start`, restricted to its ASCII
fragment (the ASCII letters; note `XID_Start` contains neither digits nor
`_`). -/
def isXidStart (c : Char) : Bool :=
  (65 ≤ c.toNat && c.toNat ≤ 90) || (97 ≤ c.toNat && c.toNat ≤ 122)

/-- Models `unicode_xid::UnicodeXID::is_xid_continue`, restricted to its ASCII
fragment (letters, digits and `_`). -/
def isXidCont (c : Char) : Bool :=
  isXidStart c || isAsciiDigit c || c = '_'

/-- The keyword table of `Scanner::scan_token` (the `match ident` block). -/
def keywordLookup (s : String) : TokenType :=
  match s with
  | "and" => .And
  | "class" => .Class
  | "else" => .Else
  | "false" => .False
  | "for" => .For
  | "fun" => .Fun
  | "if" => .If
  | "nil" => .Nil
  | "or" => .Or
  | "print" => .Print
  | "return" => .Return
  | "super" => .Super
  | "this" => .This
  | "true" => .True
  | "var" => .Var
  | "while" => .While
  | _ => .Identifier

/-- The scanner state (`struct Scanner`): the full source, the character
position of the iterator (`iter`, modelled by an index into `source`), the
byte indices `start` and `current`, and the line counter.  The accumulated
token vector is threaded separately through the scan loop. -/
structure ScanState where
  source : List Char
  pos : Nat
  start : Nat
  current : Nat
  line : Int
deriving DecidableEq, Repr

/-- `Scanner::next`: advance the iterator, adding `len_utf8` to `current`. -/
def nextc (st : ScanState) : Option Char × ScanState :=
  match st.source[st.pos]? with
  | some c => (some c, { st with pos := st.pos + 1, current := st.current + c.utf8Size })
  | none => (none, st)

/-- `Scanner::next_if_eq`: consume the next character iff it equals
`expected`. -/
def nextIfEq (st : ScanState) (expected : Char) : Bool × ScanState :=
  match st.source[st.pos]? with
  | some c =>
    if c = expected then
      (true, { st with pos := st.pos + 1, current := st.current + c.utf8Size })
    else
      (false, st)
  | none => (false, st)

/-- `Scanner::next_while`: consume the maximal run of characters satisfying
`p`. -/
def nextWhile (st : ScanState) (p : Char → Bool) : ScanState :=
  let run := (st.source.drop st.pos).takeWhile p
  { st with pos := st.pos + run.length, current := st.current + utf8Len run }

/-- `Scanner::decimal_point`: on a clone of the iterator, the next character
is `.` and the one after it is an ASCII digit. -/
def decimalPoint (st : ScanState) : Bool :=
  st.source[st.pos]? == some '.' &&
    ((st.source[st.pos + 1]?).filter isAsciiDigit).isSome

/-- The loop body of `Scanner::string`, on the remaining characters: returns
`some (n, k)` when a closing quote is found after consuming `n` characters
(quote included) spanning `k` newlines, `none` (unterminated) otherwise. -/
def stringScan : List Char → Option (Nat × Int)
  | [] => none
  | c :: rest =>
    if c = '"' then some (1, 0)
    else (stringScan rest).map (fun nk => (nk.1 + 1, nk.2 + (if c = '\n' then 1 else 0)))

/-- `Scanner::string`: consume through the closing quote, counting embedded
newlines, or fail with `Unterminated string`. -/
def stringTok (st : ScanState) : Except ScanErr (TokenType × ScanState) :=
  match stringScan (st.source.drop st.pos) with
  | some (n, k) =>
    .ok (.StringLiteral,
      { st with
        pos := st.pos + n
        current := st.current + utf8Len ((st.source.drop st.pos).take n)
        line := st.line + k })
  | none => .error (.msg "Unterminated string")

/-- The classification `match` of `Scanner::scan_token` (lines 101–194 of
`scanner.rs`): consume one character (plus lookahead) and compute the token
kind, or fail.  Branches appear in source order; the catch-all guards
(`is_whitespace`, `is_ascii_digit`, `is_xid_start`) become an if-chain in the
same order. -/
def scanKind (st : ScanState) : Except ScanErr (TokenType × ScanState) :=
  match nextc st with
  | (none, st1) => .ok (.Eof, st1)
  | (some c, st1) =>
    if c = '(' then .ok (.LeftParen, st1)
    else if c = ')' then .ok (.RightParen, st1)
    else if c = '{' then .ok (.LeftBrace, st1)
    else if c = '}' then .ok (.RightBrace, st1)
    else if c = ',' then .ok (.Comma, st1)
    else if c = '.' then .ok (.Dot, st1)
    else if c = '-' then .ok (.Minus, st1)
    else if c = '+' then .ok (.Plus, st1)
    else if c = ';' then .ok (.Semicolon, st1)
    else if c = '*' then .ok (.Star, st1)
    else if c = '!' then
      match nextIfEq st1 '=' with
      | (true, st2) => .ok (.BangEqual, st2)
      | (false, st2) => .ok (.Bang, st2)
    else if c = '=' then
      match nextIfEq st1 '=' with
      | (true, st2) => .ok (.EqualEqual, st2)
      | (false, st2) => .ok (.Equal, st2)
    else if c = '<' then
      match nextIfEq st1 '=' with
      | (true, st2) => .ok (.LessEqual, st2)
      | (false, st2) => .ok (.Less, st2)
    else if c = '>' then
      match nextIfEq st1 '=' with
      | (true, st2) => .ok (.GreaterEqual, st2)
      | (false, st2) => .ok (.Greater, st2)
    else if c = '/' then
      match nextIfEq st1 '/' with
      | (true, st2) => .ok (.Whitespace, nextWhile st2 (fun d => d != '\n'))
      | (false, st2) => .ok (.Slash, st2)
    else if c = '\n' then .ok (.Whitespace, { st1 with line := st1.line + 1 })
    else if c = '"' then stringTok st1
    else if rustWhitespace c then .ok (.Whitespace, st1)
    else if isAsciiDigit c then
      if decimalPoint (nextWhile st1 isAsciiDigit) then
        .ok (.NumberLiteral,
          nextWhile (nextc (nextWhile st1 isAsciiDigit)).2 isAsciiDigit)
      else
        .ok (.NumberLiteral, nextWhile st1 isAsciiDigit)
    else if isXidStart c then
      match utf8Slice (nextWhile st1 isXidCont).source (nextWhile st1 isXidCont).start
          (nextWhile st1 isXidCont).current with
      | some ident => .ok (keywordLookup (String.mk ident), nextWhile st1 isXidCont)
      | none => .error .slicePanic
    else
      .error (.msg "Found unexpected character")

/-- `Scanner::scan_token`: record the token start (`self.start =
self.current`), classify, then build the token from the source slice
`source[start..current]` and the current line counter, finally resetting
`start`. -/
def scanToken (st0 : ScanState) : Except ScanErr (Token × ScanState) :=
  let st := { st0 with start := st0.current }
  match scanKind st with
  | .error e => .error e
  | .ok (kind, st1) =>
    match utf8Slice st1.source st1.start st1.current with
    | some l =>
      .ok ({ kind := kind, lexeme := String.mk l, line := st1.line },
           { st1 with start := st1.current })
    | none => .error .slicePanic

/-- The loop of `Scanner::scan_tokens`: repeatedly scan a token, dropping
`Whitespace`, appending every other token, and stopping after appending
`Eof`.  Fuel makes the recursion structural; `scanTokens` supplies enough
fuel (proved below). -/
def scanLoop : Nat → ScanState → List Token → Except ScanErr (List Token)
  | 0, _, _ => .error .noFuel
  | fuel + 1, st, acc =>
    match scanToken st with
    | .error e => .error e
    | .ok (t, st') =>
      if t.kind = .Whitespace then scanLoop fuel st' acc
      else if t.kind = .Eof then .ok (acc ++ [t])
      else scanLoop fuel st' (acc ++ [t])

/-- `Scanner::new`. -/
def initState (s : String) : ScanState :=
  { source := s.data, pos := 0, start := 0, current := 0, line := 1 }

/-- `Scanner::scan_tokens` on a source string. -/
def scanTokens (s : String) : Except ScanErr (List Token) :=
  scanLoop (s.length + 1) (initState s) []

/-! ## Parser (src/parser.rs) -/

/-- `enum Literal` of `parser.rs`.  The payload of `Num` is Rust's `f64`
obtained from `str::parse`; it is modelled exactly as a rational (see the
header note). -/
inductive Literal where
  | num (q : ℚ)
  | str (s : String)
  | bool (b : Bool)
  | nil
deriving DecidableEq, Repr

/-- `enum Expression` of `parser.rs`. -/
inductive Expression where
  | literal (l : Literal)
  | unary (op : TokenType) (e : Expression)
  | binary (e1 : Expression) (op : TokenType) (e2 : Expression)
deriving DecidableEq, Repr

/-- Parser failure: `perr` models the `panic!`/`expect` aborts of
`parser.rs`; `noFuel` is the artefact of the fuel encoding (proved
unreachable for the fuel `parse` supplies). -/
inductive PErr where
  | perr (msg : String)
  | noFuel
deriving DecidableEq, Repr

/-- Accumulate the value of a run of ASCII digits (helper for
`parseNumber`). -/
def digitsToNat (l : List Char) : Nat :=
  l.foldl (fun a c => 10 * a + (c.toNat - 48)) 0

/-- Models `cur.lexeme.parse::<f64>()` of `Parser::primary`, restricted to the
lexeme grammar the scanner emits (`digits` or `digits.digits`), with the exact
rational value. -/
def parseNumber (s : String) : Option ℚ :=
  let l := s.data
  let ds := l.takeWhile isAsciiDigit
  if ds.isEmpty then none
  else
    match l.drop ds.length with
    | [] => some (digitsToNat ds : ℚ)
    | '.' :: fs =>
      if !fs.isEmpty && fs.all isAsciiDigit then
        some ((digitsToNat ds : ℚ) + (digitsToNat fs : ℚ) / ((10 : ℚ) ^ fs.length))
      else none
    | _ => none

/-- `Parser::advance_if_eq` (together with `current` and `advance`): if the
token at `i` exists and its kind is one of `options`, consume it and return
the kind. -/
def advanceIfEq (ts : List Token) (options : List TokenType) (i : Nat) :
    Option (TokenType × Nat) :=
  match ts[i]? with
  | some cur => if options.contains cur.kind then some (cur.kind, i + 1) else none
  | none => none

mutual

/-- `Parser::expression`: parse a `comparison`, then fold `!=`/`==` layers
left-associatively (the `while` loop is `eqLoopP`). -/
def expressionP : Nat → List Token → Nat → Except PErr (Expression × Nat)
  | 0, _, _ => .error .noFuel
  | fuel + 1, ts, i =>
    match comparisonP fuel ts i with
    | .error pe => .error pe
    | .ok (e, j) => eqLoopP fuel ts e j

termination_by structural fuel _ _ => fuel

/-- The `while` loop of `Parser::expression`. -/
def eqLoopP : Nat → List Token → Expression → Nat → Except PErr (Expression × Nat)
  | 0, _, _, _ => .error .noFuel
  | fuel + 1, ts, e, j =>
    match advanceIfEq ts [.NotEqual, .EqualEqual] j with
    | some (op, j1) =>
      match comparisonP fuel ts j1 with
      | .error pe => .error pe
      | .ok (r, k) => eqLoopP fuel ts (.binary e op r) k
    | none => .ok (e, j)

termination_by structural fuel _ _ _ => fuel

/-- `Parser::comparison`. -/
def comparisonP : Nat → List Token → Nat → Except PErr (Expression × Nat)
  | 0, _, _ => .error .noFuel
  | fuel + 1, ts, i =>
    match termP fuel ts i with
    | .error pe => .error pe
    | .ok (e, j) => compLoopP fuel ts e j

termination_by structural fuel _ _ => fuel

/-- The `while` loop of `Parser::comparison`. -/
def compLoopP : Nat → List Token → Expression → Nat → Except PErr (Expression × Nat)
  | 0, _, _, _ => .error .noFuel
  | fuel + 1, ts, e, j =>
    match advanceIfEq ts [.Greater, .GreaterEqual, .Less, .LessEqual] j with
    | some (op, j1) =>
      match termP fuel ts j1 with
      | .error pe => .error pe
      | .ok (r, k) => compLoopP fuel ts (.binary e op r) k
    | none => .ok (e, j)

termination_by structural fuel _ _ _ => fuel

/-- `Parser::term`. -/
def termP : Nat → List Token → Nat → Except PErr (Expression × Nat)
  | 0, _, _ => .error .noFuel
  | fuel + 1, ts, i =>
    match factorP fuel ts i with
    | .error pe => .error pe
    | .ok (e, j) => termLoopP fuel ts e j

termination_by structural fuel _ _ => fuel

/-- The `while` loop of `Parser::term`. -/
def termLoopP : Nat → List Token → Expression → Nat → Except PErr (Expression × Nat)
  | 0, _, _, _ => .error .noFuel
  | fuel + 1, ts, e, j =>
    match advanceIfEq ts [.Plus, .Minus] j with
    | some (op, j1) =>
      match factorP fuel ts j1 with
      | .error pe => .error pe
      | .ok (r, k) => termLoopP fuel ts (.binary e op r) k
    | none => .ok (e, j)

termination_by structural fuel _ _ _ => fuel

/-- `Parser::factor`. -/
def factorP : Nat → List Token → Nat → Except PErr (Expression × Nat)
  | 0, _, _ => .error .noFuel
  | fuel + 1, ts, i =>
    match unaryP fuel ts i with
    | .error pe => .error pe
    | .ok (e, j) => factorLoopP fuel ts e j

termination_by structural fuel _ _ => fuel

/-- The `while` loop of `Parser::factor`. -/
def factorLoopP : Nat → List Token → Expression → Nat → Except PErr (Expression × Nat)
  | 0, _, _, _ => .error .noFuel
  | fuel + 1, ts, e, j =>
    match advanceIfEq ts [.Times, .Divide] j with
    | some (op, j1) =>
      match unaryP fuel ts j1 with
      | .error pe => .error pe
      | .ok (r, k) => factorLoopP fuel ts (.binary e op r) k
    | none => .ok (e, j)

termination_by structural fuel _ _ _ => fuel

/-- `Parser::unary`: a leading `-`/`!` wraps a recursively parsed `unary`,
otherwise fall through to `primary`. -/
def unaryP : Nat → List Token → Nat → Except PErr (Expression × Nat)
  | 0, _, _ => .error .noFuel
  | fuel + 1, ts, i =>
    match advanceIfEq ts [.Minus, .Not] i with
    | some (op, i1) =>
      match unaryP fuel ts i1 with
      | .error pe => .error pe
      | .ok (r, k) => .ok (.unary op r, k)
    | none => primaryP fuel ts i

termination_by structural fuel _ _ => fuel

/-- `Parser::primary`: literals consume one token; `(` parses an inner
`expression` and requires a following `)`; anything else is a fatal parse
error (`panic!` in the source, modelled as `PErr.perr`). -/
def primaryP : Nat → List Token → Nat → Except PErr (Expression × Nat)
  | 0, _, _ => .error .noFuel
  | fuel + 1, ts, i =>
    match ts[i]? with
    | none => .error (.perr "Expected literal, found EOF")
    | some cur =>
      match cur.kind with
      | .NumLiteral =>
        match parseNumber cur.lexeme with
        | some q => .ok (.literal (.num q), i + 1)
        | none => .error (.perr "Failed to parse number")
      | .StrLiteral => .ok (.literal (.str cur.lexeme), i + 1)
      | .True => .ok (.literal (.bool true), i + 1)
      | .False => .ok (.literal (.bool false), i + 1)
      | .Nil => .ok (.literal .nil, i + 1)
      | .LeftParen =>
        match expressionP fuel ts (i + 1) with
        | .error pe => .error pe
        | .ok (inner, k) =>
          match advanceIfEq ts [.RightParen] k with
          | some (_, k1) => .ok (inner, k1)
          | none => .error (.perr "Error: no matching right parenthesis")
      | _ => .error (.perr "Expected literal, found wrong TokenType")

termination_by structural fuel _ _ => fuel

end

/-- Fuel that always suffices for `parse` (proved below): linear in the token
count. -/
def parseFuel (ts : List Token) : Nat :=
  16 * (ts.length + 1) + 16

/-- `Parser::parse` (with `Parser::new tokens`): parse one expression starting
at cursor 0.  The returned `Nat` is the parser's final `cur_idx`. -/
def parse (ts : List Token) : Except PErr (Expression × Nat) :=
  expressionP (parseFuel ts) ts 0

/-- A number-literal token fixture (line 1, lexeme `s`). -/
def numTok (s : String) : Token :=
  ⟨.NumLiteral, s, 1⟩

/-- An operator token fixture (the parser only inspects the kind). -/
def opTok (k : TokenType) : Token :=
  ⟨k, "", 1⟩

/-- The `Eof` sentinel token the scanner appends. -/
def eofTok : Token :=
  ⟨.Eof, "", 1⟩

/-- The operator sets of the four binary precedence layers of `parser.rs`
(`expression`, `comparison`, `term`, `factor`), highest layer first. -/
def binaryLayers : List (List TokenType) :=
  [[.NotEqual, .EqualEqual],
   [.Greater, .GreaterEqual, .Less, .LessEqual],
   [.Plus, .Minus],
   [.Times, .Divide]]

/-- The well-formedness invariant of a scanner state between `scan_token`
calls: the iterator position is in range, `current` is the UTF-8 byte length
of the consumed prefix, and `start` is the byte length of some earlier
prefix. -/
def Inv (st : ScanState) : Prop :=
  st.pos ≤ st.source.length ∧
  st.current = utf8Len (st.source.take st.pos) ∧
  ∃ k, k ≤ st.pos ∧ st.start = utf8Len (st.source.take k)

/-- The keyword spelled by a keyword token kind (`Identifier` and every
non-keyword kind map to `""`); inverse direction of `keywordLookup`. -/
def keywordString : TokenType → String
  | .And => "and"
  | .Class => "class"
  | .Else => "else"
  | .False => "false"
  | .For => "for"
  | .Fun => "fun"
  | .If => "if"
  | .Nil => "nil"
  | .Or => "or"
  | .Print => "print"
  | .Return => "return"
  | .Super => "super"
  | .This => "this"
  | .True => "true"
  | .Var => "var"
  | .While => "while"
  | _ => ""

/-- Exactly the lexeme shapes `scan_token` can emit for each (non-`Whitespace`,
non-`Eof`) token kind, read off from the branches of `Scanner::scan_token`. -/
def goodLex : TokenType → List Char → Bool
  | .LeftParen, l => l == ['(']
  | .RightParen, l => l == [')']
  | .LeftBrace, l => l == ['{']
  | .RightBrace, l => l == ['}']
  | .Comma, l => l == [',']
  | .Dot, l => l == ['.']
  | .Minus, l => l == ['-']
  | .Plus, l => l == ['+']
  | .Semicolon, l => l == [';']
  | .Star, l => l == ['*']
  | .Bang, l => l == ['!']
  | .BangEqual, l => l == ['!', '=']
  | .Equal, l => l == ['=']
  | .EqualEqual, l => l == ['=', '=']
  | .Less, l => l == ['<']
  | .LessEqual, l => l == ['<', '=']
  | .Greater, l => l == ['>']
  | .GreaterEqual, l => l == ['>', '=']
  | .Slash, l => l == ['/']
  | .StringLiteral, l =>
    match l with
    | '"' :: rest =>
      !rest.isEmpty && rest.dropLast.all (· != '"') && rest.getLast? == some '"'
    | _ => false
  | .NumberLiteral, l =>
    let ds := l.takeWhile isAsciiDigit
    let rest := l.drop ds.length
    !ds.isEmpty &&
      (rest.isEmpty ||
        (rest.head? == some '.' && !(rest.drop 1).isEmpty &&
          (rest.drop 1).all isAsciiDigit))
  | .Identifier, l =>
    (match l with
     | c :: cs => isXidStart c && cs.all isXidCont
     | [] => false) &&
    keywordLookup (String.mk l) == .Identifier
  | .And, l => l == "and".data
  | .Class, l => l == "class".data
  | .Else, l => l == "else".data
  | .False, l => l == "false".data
  | .For, l => l == "for".data
  | .Fun, l => l == "fun".data
  | .If, l => l == "if".data
  | .Nil, l => l == "nil".data
  | .Or, l => l == "or".data
  | .Print, l => l == "print".data
  | .Return, l => l == "return".data
  | .Super, l => l == "super".data
  | .This, l => l == "this".data
  | .True, l => l == "true".data
  | .Var, l => l == "var".data
  | .While, l => l == "while".data
  | _, _ => false

/-- Scanner states reachable from a given state by whole `scan_token` steps
(the states at which a token begins). -/
inductive Reachable : ScanState → ScanState → Prop where
  | refl (st : ScanState) : Reachable st st
  | step {a b c : ScanState} {t : Token} :
      Reachable a b → scanToken b = .ok (t, c) → Reachable a c

/-- What one successful `scanKind` step guarantees (given the entry
invariant): source and `start` untouched, the cursor moves forward within
bounds, `current` stays the byte length of the consumed prefix, `Eof` is
produced exactly at end of input (leaving the state unchanged), and any real
token's consumed characters have the shape recorded by `goodLex`. -/
def ScanKindConc (st : ScanState) (k : TokenType) (st' : ScanState) : Prop :=
  st'.source = st.source ∧ st'.start = st.start ∧
  st.pos ≤ st'.pos ∧ st'.pos ≤ st.source.length ∧
  st'.current = utf8Len (st.source.take st'.pos) ∧
  (k = .Eof ↔ st.pos = st.source.length) ∧
  (k = .Eof → st' = st) ∧
  (k ≠ .Eof → st.pos < st'.pos) ∧
  (k ≠ .Eof → k ≠ .Whitespace →
    goodLex k ((st.source.take st'.pos).drop st.pos) = true)

/-- Sanity check replicating `scanner.rs` test `test1` (`test1.lox` is
`var i = 1;` with a trailing newline). -/
example :
    scanTokens "var i = 1;\n" =
      .ok [⟨.Var, "var", 1⟩, ⟨.Identifier, "i", 1⟩, ⟨.Equal, "=", 1⟩,
           ⟨.NumberLiteral, "1", 1⟩, ⟨.Semicolon, ";", 1⟩, ⟨.Eof, "", 2⟩] := by
  decide

/-- Sanity check replicating `scanner.rs` test `test2`. -/
example :
    scanTokens "var s = \"Hello, World!\";\n" =
      .ok [⟨.Var, "var", 1⟩, ⟨.Identifier, "s", 1⟩, ⟨.Equal, "=", 1⟩,
           ⟨.StringLiteral, "\"Hello, World!\"", 1⟩, ⟨.Semicolon, ";", 1⟩,
           ⟨.Eof, "", 2⟩] := by
  decide

/-- Sanity check replicating `parser.rs` test `test1`: `6 / 3` parses to
`Binary(6, Divide, 3)`. -/
example :
    parse [⟨.NumLiteral, "6", 1⟩, ⟨.Divide, "/", 1⟩, ⟨.NumLiteral, "3", 1⟩] =
      .ok (.binary (.literal (.num 6)) .Divide (.literal (.num 3)), 3) := by
  decide

/-- C4: for any two operators drawn from one binary precedence layer, the
token sequence for `a op1 b op2 c` parses strictly left-associatively as
`(a op1 b) op2 c`; with `op1 = op2 = Divide` this is the `6 / 3 / 2` example
of the specification. -/
theorem C4_left_assoc :
    ∀ layer ∈ binaryLayers, ∀ op1 ∈ layer, ∀ op2 ∈ layer,
      parse [numTok "6", opTok op1, numTok "3", opTok op2, numTok "2", eofTok] =
        .ok (.binary (.binary (.literal (.num 6)) op1 (.literal (.num 3))) op2
              (.literal (.num 2)), 5) := by
  decide

/-- Witness for C4 at the specification's own example `6 / 3 / 2`. -/
theorem C4_left_assoc_witness :
    parse [numTok "6", opTok .Divide, numTok "3", opTok .Divide, numTok "2", eofTok] =
      .ok (.binary (.binary (.literal (.num 6)) .Divide (.literal (.num 3))) .Divide
            (.literal (.num 2)), 5) :=
  C4_left_assoc [.Times, .Divide] (by decide) .Divide (by decide) .Divide (by decide)

/-- C5: multiplicative operators bind tighter than additive ones — the token
sequence for `1 addOp 2 mulOp 3` parses with the multiplicative node nested on
the right, and never to the left-grouped mis-precedence form (at any final
cursor). -/
theorem C5_precedence :
    ∀ addOp ∈ [TokenType.Plus, TokenType.Minus],
      ∀ mulOp ∈ [TokenType.Times, TokenType.Divide],
        parse [numTok "1", opTok addOp, numTok "2", opTok mulOp, numTok "3", eofTok] =
          .ok (.binary (.literal (.num 1)) addOp
                (.binary (.literal (.num 2)) mulOp (.literal (.num 3))), 5) ∧
        ∀ j, parse [numTok "1", opTok addOp, numTok "2", opTok mulOp, numTok "3", eofTok] ≠
          .ok (.binary (.binary (.literal (.num 1)) addOp (.literal (.num 2))) mulOp
                (.literal (.num 3)), j) := by
  intro addOp ha mulOp hm
  have hform :
      parse [numTok "1", opTok addOp, numTok "2", opTok mulOp, numTok "3", eofTok] =
        .ok (.binary (.literal (.num 1)) addOp
              (.binary (.literal (.num 2)) mulOp (.literal (.num 3))), 5) := by
    revert addOp mulOp
    decide
  refine ⟨hform, ?_⟩
  intro j h
  rw [hform] at h
  injection h with h'
  have hRL := congrArg Prod.fst h'
  simp at hRL

/-- Witness for C5 at `1 + 2 * 3`. -/
theorem C5_precedence_witness :
    parse [numTok "1", opTok .Plus, numTok "2", opTok .Times, numTok "3", eofTok] =
      .ok (.binary (.literal (.num 1)) .Plus
            (.binary (.literal (.num 2)) .Times (.literal (.num 3))), 5) :=
  (C5_precedence .Plus (by decide) .Times (by decide)).1

/-! ## Parser progress and termination -/

theorem advanceIfEq_some {ts : List Token} {opts : List TokenType} {i : Nat}
    {op : TokenType} {j : Nat} (h : advanceIfEq ts opts i = some (op, j)) :
    j = i + 1 ∧ i < ts.length ∧
      ∃ cur, ts[i]? = some cur ∧ cur.kind = op ∧ opts.contains op = true := by
  unfold advanceIfEq at h
  cases hx : ts[i]? with
  | none => rw [hx] at h; simp at h
  | some cur =>
    rw [hx] at h
    simp only at h
    split at h
    · rename_i hcont
      simp only [Option.some.injEq, Prod.mk.injEq] at h
      exact ⟨h.2.symm, (List.getElem?_eq_some.mp hx).1, cur, rfl, h.1, h.1 ▸ hcont⟩
    · simp at h

/-- Every parsing function of `parser.rs`, at every fuel, either fails or
advances the cursor and stays within the token list; the loop helpers never
move the cursor backwards. -/
theorem parseProgress (fuel : Nat) (ts : List Token) :
    (∀ i e j, expressionP fuel ts i = .ok (e, j) → i < j ∧ j ≤ ts.length) ∧
    (∀ e0 i e j, eqLoopP fuel ts e0 i = .ok (e, j) → i ≤ j ∧ (j = i ∨ j ≤ ts.length)) ∧
    (∀ i e j, comparisonP fuel ts i = .ok (e, j) → i < j ∧ j ≤ ts.length) ∧
    (∀ e0 i e j, compLoopP fuel ts e0 i = .ok (e, j) → i ≤ j ∧ (j = i ∨ j ≤ ts.length)) ∧
    (∀ i e j, termP fuel ts i = .ok (e, j) → i < j ∧ j ≤ ts.length) ∧
    (∀ e0 i e j, termLoopP fuel ts e0 i = .ok (e, j) → i ≤ j ∧ (j = i ∨ j ≤ ts.length)) ∧
    (∀ i e j, factorP fuel ts i = .ok (e, j) → i < j ∧ j ≤ ts.length) ∧
    (∀ e0 i e j, factorLoopP fuel ts e0 i = .ok (e, j) → i ≤ j ∧ (j = i ∨ j ≤ ts.length)) ∧
    (∀ i e j, unaryP fuel ts i = .ok (e, j) → i < j ∧ j ≤ ts.length) ∧
    (∀ i e j, primaryP fuel ts i = .ok (e, j) → i < j ∧ j ≤ ts.length) := by
  induction fuel with
  | zero =>
    refine ⟨?_, ?_, ?_, ?_, ?_, ?_, ?_, ?_, ?_, ?_⟩ <;> intro _ _ _ h <;>
      first
      | (intro h2
         simp [expressionP, eqLoopP, comparisonP, compLoopP, termP, termLoopP,
               factorP, factorLoopP, unaryP, primaryP] at h h2)
      | simp [expressionP, eqLoopP, comparisonP, compLoopP, termP, termLoopP,
              factorP, factorLoopP, unaryP, primaryP] at h
  | succ f ih =>
    obtain ⟨ihExpr, ihEqL, ihComp, ihCompL, ihTerm, ihTermL, ihFact, ihFactL,
      ihUn, ihPrim⟩ := ih
    refine ⟨?_, ?_, ?_, ?_, ?_, ?_, ?_, ?_, ?_, ?_⟩
    · -- expressionP
      intro i e j h
      simp only [expressionP] at h
      cases hc : comparisonP f ts i with
      | error pe => simp only [hc] at h; simp at h
      | ok ej =>
        obtain ⟨e0, j0⟩ := ej
        simp only [hc] at h
        obtain ⟨h1, h2⟩ := ihComp i e0 j0 hc
        obtain ⟨h3, h4⟩ := ihEqL e0 j0 e j h
        rcases h4 with rfl | h4 <;> omega
    · -- eqLoopP
      intro e0 i e j h
      simp only [eqLoopP] at h
      cases ha : advanceIfEq ts [.NotEqual, .EqualEqual] i with
      | none => simp only [ha] at h; simp at h; obtain ⟨h1, h2⟩ := h; omega
      | some opj =>
        obtain ⟨op, j1⟩ := opj
        simp only [ha] at h
        obtain ⟨rfl, hilen, -⟩ := advanceIfEq_some ha
        cases hc : comparisonP f ts (i + 1) with
        | error pe => simp only [hc] at h; simp at h
        | ok rk =>
          obtain ⟨r, k⟩ := rk
          simp only [hc] at h
          obtain ⟨h1, h2⟩ := ihComp (i + 1) r k hc
          obtain ⟨h3, h4⟩ := ihEqL _ k e j h
          rcases h4 with rfl | h4 <;> omega
    · -- comparisonP
      intro i e j h
      simp only [comparisonP] at h
      cases hc : termP f ts i with
      | error pe => simp only [hc] at h; simp at h
      | ok ej =>
        obtain ⟨e0, j0⟩ := ej
        simp only [hc] at h
        obtain ⟨h1, h2⟩ := ihTerm i e0 j0 hc
        obtain ⟨h3, h4⟩ := ihCompL e0 j0 e j h
        rcases h4 with rfl | h4 <;> omega
    · -- compLoopP
      intro e0 i e j h
      simp only [compLoopP] at h
      cases ha : advanceIfEq ts [.Greater, .GreaterEqual, .Less, .LessEqual] i with
      | none => simp only [ha] at h; simp at h; obtain ⟨h1, h2⟩ := h; omega
      | some opj =>
        obtain ⟨op, j1⟩ := opj
        simp only [ha] at h
        obtain ⟨rfl, hilen, -⟩ := advanceIfEq_some ha
        cases hc : termP f ts (i + 1) with
        | error pe => simp only [hc] at h; simp at h
        | ok rk =>
          obtain ⟨r, k⟩ := rk
          simp only [hc] at h
          obtain ⟨h1, h2⟩ := ihTerm (i + 1) r k hc
          obtain ⟨h3, h4⟩ := ihCompL _ k e j h
          rcases h4 with rfl | h4 <;> omega
    · -- termP
      intro i e j h
      simp only [termP] at h
      cases hc : factorP f ts i with
      | error pe => simp only [hc] at h; simp at h
      | ok ej =>
        obtain ⟨e0, j0⟩ := ej
        simp only [hc] at h
        obtain ⟨h1, h2⟩ := ihFact i e0 j0 hc
        obtain ⟨h3, h4⟩ := ihTermL e0 j0 e j h
        rcases h4 with rfl | h4 <;> omega
    · -- termLoopP
      intro e0 i e j h
      simp only [termLoopP] at h
      cases ha : advanceIfEq ts [.Plus, .Minus] i with
      | none => simp only [ha] at h; simp at h; obtain ⟨h1, h2⟩ := h; omega
      | some opj =>
        obtain ⟨op, j1⟩ := opj
        simp only [ha] at h
        obtain ⟨rfl, hilen, -⟩ := advanceIfEq_some ha
        cases hc : factorP f ts (i + 1) with
        | error pe => simp only [hc] at h; simp at h
        | ok rk =>
          obtain ⟨r, k⟩ := rk
          simp only [hc] at h
          obtain ⟨h1, h2⟩ := ihFact (i + 1) r k hc
          obtain ⟨h3, h4⟩ := ihTermL _ k e j h
          rcases h4 with rfl | h4 <;> omega
    · -- factorP
      intro i e j h
      simp only [factorP] at h
      cases hc : unaryP f ts i with
      | error pe => simp only [hc] at h; simp at h
      | ok ej =>
        obtain ⟨e0, j0⟩ := ej
        simp only [hc] at h
        obtain ⟨h1, h2⟩ := ihUn i e0 j0 hc
        obtain ⟨h3, h4⟩ := ihFactL e0 j0 e j h
        rcases h4 with rfl | h4 <;> omega
    · -- factorLoopP
      intro e0 i e j h
      simp only [factorLoopP] at h
      cases ha : advanceIfEq ts [.Times, .Divide] i with
      | none => simp only [ha] at h; simp at h; obtain ⟨h1, h2⟩ := h; omega
      | some opj =>
        obtain ⟨op, j1⟩ := opj
        simp only [ha] at h
        obtain ⟨rfl, hilen, -⟩ := advanceIfEq_some ha
        cases hc : unaryP f ts (i + 1) with
        | error pe => simp only [hc] at h; simp at h
        | ok rk =>
          obtain ⟨r, k⟩ := rk
          simp only [hc] at h
          obtain ⟨h1, h2⟩ := ihUn (i + 1) r k hc
          obtain ⟨h3, h4⟩ := ihFactL _ k e j h
          rcases h4 with rfl | h4 <;> omega
    · -- unaryP
      intro i e j h
      simp only [unaryP] at h
      cases ha : advanceIfEq ts [.Minus, .Not] i with
      | none => simp only [ha] at h; exact ihPrim i e j h
      | some opi =>
        obtain ⟨op, i1⟩ := opi
        simp only [ha] at h
        obtain ⟨rfl, hilen, -⟩ := advanceIfEq_some ha
        cases hu : unaryP f ts (i + 1) with
        | error pe => simp only [hu] at h; simp at h
        | ok rk =>
          obtain ⟨r, k⟩ := rk
          simp only [hu] at h
          simp only [Except.ok.injEq, Prod.mk.injEq] at h
          obtain ⟨h1, h2⟩ := ihUn (i + 1) r k hu
          omega
    · -- primaryP
      intro i e j h
      simp only [primaryP] at h
      cases hx : ts[i]? with
      | none => simp only [hx] at h; simp at h
      | some cur =>
        simp only [hx] at h
        have hilen : i < ts.length := (List.getElem?_eq_some.mp hx).1
        split at h
        · -- NumLiteral
          split at h
          · simp only [Except.ok.injEq, Prod.mk.injEq] at h
            obtain ⟨h1, h2⟩ := h
            omega
          · simp at h
        · -- StrLiteral
          simp only [Except.ok.injEq, Prod.mk.injEq] at h
          obtain ⟨h1, h2⟩ := h
          omega
        · -- True
          simp only [Except.ok.injEq, Prod.mk.injEq] at h
          obtain ⟨h1, h2⟩ := h
          omega
        · -- False
          simp only [Except.ok.injEq, Prod.mk.injEq] at h
          obtain ⟨h1, h2⟩ := h
          omega
        · -- Nil
          simp only [Except.ok.injEq, Prod.mk.injEq] at h
          obtain ⟨h1, h2⟩ := h
          omega
        · -- LeftParen
          cases he : expressionP f ts (i + 1) with
          | error pe => simp only [he] at h; simp at h
          | ok ik =>
            obtain ⟨inner, k⟩ := ik
            simp only [he] at h
            cases harp : advanceIfEq ts [.RightParen] k with
            | none => simp only [harp] at h; simp at h
            | some pk =>
              obtain ⟨p, k1⟩ := pk
              simp only [harp] at h
              obtain ⟨rfl, hklen, -⟩ := advanceIfEq_some harp
              obtain ⟨h1, h2⟩ := ihExpr (i + 1) inner k he
              simp only [Except.ok.injEq, Prod.mk.injEq] at h
              omega
        · -- catch-all: wrong token kind
          simp at h

/-- Linear fuel suffices: with `16 * (remaining tokens) + rank` fuel, no
parsing function can exhaust its fuel (`rank` orders the functions by their
position in the precedence chain). -/
theorem parseFuelSuff (fuel : Nat) (ts : List Token) :
    (∀ i, 16 * (ts.length + 1 - i) + 9 ≤ fuel → expressionP fuel ts i ≠ .error .noFuel) ∧
    (∀ e0 i, 16 * (ts.length + 1 - i) + 10 ≤ fuel → eqLoopP fuel ts e0 i ≠ .error .noFuel) ∧
    (∀ i, 16 * (ts.length + 1 - i) + 7 ≤ fuel → comparisonP fuel ts i ≠ .error .noFuel) ∧
    (∀ e0 i, 16 * (ts.length + 1 - i) + 8 ≤ fuel → compLoopP fuel ts e0 i ≠ .error .noFuel) ∧
    (∀ i, 16 * (ts.length + 1 - i) + 5 ≤ fuel → termP fuel ts i ≠ .error .noFuel) ∧
    (∀ e0 i, 16 * (ts.length + 1 - i) + 6 ≤ fuel → termLoopP fuel ts e0 i ≠ .error .noFuel) ∧
    (∀ i, 16 * (ts.length + 1 - i) + 3 ≤ fuel → factorP fuel ts i ≠ .error .noFuel) ∧
    (∀ e0 i, 16 * (ts.length + 1 - i) + 4 ≤ fuel → factorLoopP fuel ts e0 i ≠ .error .noFuel) ∧
    (∀ i, 16 * (ts.length + 1 - i) + 2 ≤ fuel → unaryP fuel ts i ≠ .error .noFuel) ∧
    (∀ i, 16 * (ts.length + 1 - i) + 1 ≤ fuel → primaryP fuel ts i ≠ .error .noFuel) := by
  induction fuel with
  | zero =>
    refine ⟨?_, ?_, ?_, ?_, ?_, ?_, ?_, ?_, ?_, ?_⟩ <;> intros <;> omega
  | succ f ih =>
    obtain ⟨ihExpr, ihEqL, ihComp, ihCompL, ihTerm, ihTermL, ihFact, ihFactL,
      ihUn, ihPrim⟩ := ih
    obtain ⟨pgExpr, pgEqL, pgComp, pgCompL, pgTerm, pgTermL, pgFact, pgFactL,
      pgUn, pgPrim⟩ := parseProgress f ts
    refine ⟨?_, ?_, ?_, ?_, ?_, ?_, ?_, ?_, ?_, ?_⟩
    · -- expressionP
      intro i hfuel h
      simp only [expressionP] at h
      cases hc : comparisonP f ts i with
      | error pe =>
        simp only [hc, Except.error.injEq] at h
        subst h
        exact absurd hc (ihComp i (by omega))
      | ok ej =>
        obtain ⟨e0, j0⟩ := ej
        simp only [hc] at h
        obtain ⟨h1, h2⟩ := pgComp i e0 j0 hc
        exact absurd h (ihEqL e0 j0 (by omega))
    · -- eqLoopP
      intro e0 i hfuel h
      simp only [eqLoopP] at h
      cases ha : advanceIfEq ts [.NotEqual, .EqualEqual] i with
      | none => simp only [ha] at h; simp at h
      | some opj =>
        obtain ⟨op, j1⟩ := opj
        simp only [ha] at h
        obtain ⟨rfl, hilen, -⟩ := advanceIfEq_some ha
        cases hc : comparisonP f ts (i + 1) with
        | error pe =>
          simp only [hc, Except.error.injEq] at h
          subst h
          exact absurd hc (ihComp (i + 1) (by omega))
        | ok rk =>
          obtain ⟨r, k⟩ := rk
          simp only [hc] at h
          obtain ⟨h1, h2⟩ := pgComp (i + 1) r k hc
          exact absurd h (ihEqL _ k (by omega))
    · -- comparisonP
      intro i hfuel h
      simp only [comparisonP] at h
      cases hc : termP f ts i with
      | error pe =>
        simp only [hc, Except.error.injEq] at h
        subst h
        exact absurd hc (ihTerm i (by omega))
      | ok ej =>
        obtain ⟨e0, j0⟩ := ej
        simp only [hc] at h
        obtain ⟨h1, h2⟩ := pgTerm i e0 j0 hc
        exact absurd h (ihCompL e0 j0 (by omega))
    · -- compLoopP
      intro e0 i hfuel h
      simp only [compLoopP] at h
      cases ha : advanceIfEq ts [.Greater, .GreaterEqual, .Less, .LessEqual] i with
      | none => simp only [ha] at h; simp at h
      | some opj =>
        obtain ⟨op, j1⟩ := opj
        simp only [ha] at h
        obtain ⟨rfl, hilen, -⟩ := advanceIfEq_some ha
        cases hc : termP f ts (i + 1) with
        | error pe =>
          simp only [hc, Except.error.injEq] at h
          subst h
          exact absurd hc (ihTerm (i + 1) (by omega))
        | ok rk =>
          obtain ⟨r, k⟩ := rk
          simp only [hc] at h
          obtain ⟨h1, h2⟩ := pgTerm (i + 1) r k hc
          exact absurd h (ihCompL _ k (by omega))
    · -- termP
      intro i hfuel h
      simp only [termP] at h
      cases hc : factorP f ts i with
      | error pe =>
        simp only [hc, Except.error.injEq] at h
        subst h
        exact absurd hc (ihFact i (by omega))
      | ok ej =>
        obtain ⟨e0, j0⟩ := ej
        simp only [hc] at h
        obtain ⟨h1, h2⟩ := pgFact i e0 j0 hc
        exact absurd h (ihTermL e0 j0 (by omega))
    · -- termLoopP
      intro e0 i hfuel h
      simp only [termLoopP] at h
      cases ha : advanceIfEq ts [.Plus, .Minus] i with
      | none => simp only [ha] at h; simp at h
      | some opj =>
        obtain ⟨op, j1⟩ := opj
        simp only [ha] at h
        obtain ⟨rfl, hilen, -⟩ := advanceIfEq_some ha
        cases hc : factorP f ts (i + 1) with
        | error pe =>
          simp only [hc, Except.error.injEq] at h
          subst h
          exact absurd hc (ihFact (i + 1) (by omega))
        | ok rk =>
          obtain ⟨r, k⟩ := rk
          simp only [hc] at h
          obtain ⟨h1, h2⟩ := pgFact (i + 1) r k hc
          exact absurd h (ihTermL _ k (by omega))
    · -- factorP
      intro i hfuel h
      simp only [factorP] at h
      cases hc : unaryP f ts i with
      | error pe =>
        simp only [hc, Except.error.injEq] at h
        subst h
        exact absurd hc (ihUn i (by omega))
      | ok ej =>
        obtain ⟨e0, j0⟩ := ej
        simp only [hc] at h
        obtain ⟨h1, h2⟩ := pgUn i e0 j0 hc
        exact absurd h (ihFactL e0 j0 (by omega))
    · -- factorLoopP
      intro e0 i hfuel h
      simp only [factorLoopP] at h
      cases ha : advanceIfEq ts [.Times, .Divide] i with
      | none => simp only [ha] at h; simp at h
      | some opj =>
        obtain ⟨op, j1⟩ := opj
        simp only [ha] at h
        obtain ⟨rfl, hilen, -⟩ := advanceIfEq_some ha
        cases hc : unaryP f ts (i + 1) with
        | error pe =>
          simp only [hc, Except.error.injEq] at h
          subst h
          exact absurd hc (ihUn (i + 1) (by omega))
        | ok rk =>
          obtain ⟨r, k⟩ := rk
          simp only [hc] at h
          obtain ⟨h1, h2⟩ := pgUn (i + 1) r k hc
          exact absurd h (ihFactL _ k (by omega))
    · -- unaryP
      intro i hfuel h
      simp only [unaryP] at h
      cases ha : advanceIfEq ts [.Minus, .Not] i with
      | none =>
        simp only [ha] at h
        exact absurd h (ihPrim i (by omega))
      | some opi =>
        obtain ⟨op, i1⟩ := opi
        simp only [ha] at h
        obtain ⟨rfl, hilen, -⟩ := advanceIfEq_some ha
        cases hu : unaryP f ts (i + 1) with
        | error pe =>
          simp only [hu, Except.error.injEq] at h
          subst h
          exact absurd hu (ihUn (i + 1) (by omega))
        | ok rk =>
          obtain ⟨r, k⟩ := rk
          simp only [hu] at h
          simp at h
    · -- primaryP
      intro i hfuel h
      simp only [primaryP] at h
      cases hx : ts[i]? with
      | none => simp only [hx] at h; simp at h
      | some cur =>
        have hilen : i < ts.length := (List.getElem?_eq_some.mp hx).1
        simp only [hx] at h
        split at h
        · -- NumLiteral
          split at h <;> simp at h
        · -- StrLiteral
          simp at h
        · -- True
          simp at h
        · -- False
          simp at h
        · -- Nil
          simp at h
        · -- LeftParen
          cases he : expressionP f ts (i + 1) with
          | error pe =>
            simp only [he, Except.error.injEq] at h
            subst h
            exact absurd he (ihExpr (i + 1) (by omega))
          | ok ik =>
            obtain ⟨inner, k⟩ := ik
            simp only [he] at h
            cases harp : advanceIfEq ts [.RightParen] k with
            | none => simp only [harp] at h; simp at h
            | some pk =>
              obtain ⟨p, k1⟩ := pk
              simp only [harp] at h
              simp at h
        · -- catch-all
          simp at h

/-- C9: every successful call to `primary` advances the cursor by at least one
token and stays inside the token list (a literal consumes exactly one token; a
parenthesized group consumes through its closing `RightParen`); a failing call
reports a fatal parse error.  Consequently every parsing function — and
`parse`, which supplies the linear fuel bound — terminates on every finite
token sequence: no run can exhaust its fuel. -/
theorem C9_primary_progress_termination :
    (∀ ts fuel i e j, primaryP fuel ts i = .ok (e, j) → i < j ∧ j ≤ ts.length) ∧
    (∀ ts fuel i cur e j, ts[i]? = some cur →
      (cur.kind = .NumLiteral ∨ cur.kind = .StrLiteral ∨ cur.kind = .True ∨
       cur.kind = .False ∨ cur.kind = .Nil) →
      primaryP fuel ts i = .ok (e, j) → j = i + 1) ∧
    (∀ ts fuel i cur e j, ts[i]? = some cur → cur.kind = .LeftParen →
      primaryP fuel ts i = .ok (e, j) →
      i + 2 ≤ j ∧ ∃ rp, ts[j - 1]? = some rp ∧ rp.kind = .RightParen) ∧
    (∀ ts fuel i, 16 * (ts.length + 1 - i) + 16 ≤ fuel →
      expressionP fuel ts i ≠ .error .noFuel ∧ comparisonP fuel ts i ≠ .error .noFuel ∧
      termP fuel ts i ≠ .error .noFuel ∧ factorP fuel ts i ≠ .error .noFuel ∧
      unaryP fuel ts i ≠ .error .noFuel ∧ primaryP fuel ts i ≠ .error .noFuel) ∧
    (∀ ts, parse ts ≠ .error .noFuel) := by
  refine ⟨?_, ?_, ?_, ?_, ?_⟩
  · intro ts fuel i e j h
    exact (parseProgress fuel ts).2.2.2.2.2.2.2.2.2 i e j h
  · intro ts fuel i cur e j hx hkind h
    cases fuel with
    | zero => simp [primaryP] at h
    | succ f =>
      simp only [primaryP, hx] at h
      rcases hkind with hk | hk | hk | hk | hk <;> simp only [hk] at h
      · cases hq : parseNumber cur.lexeme with
        | none => simp only [hq] at h; simp at h
        | some q =>
          simp only [hq, Except.ok.injEq, Prod.mk.injEq] at h
          exact h.2.symm
      all_goals
        simp only [Except.ok.injEq, Prod.mk.injEq] at h
        exact h.2.symm
  · intro ts fuel i cur e j hx hk h
    cases fuel with
    | zero => simp [primaryP] at h
    | succ f =>
      simp only [primaryP, hx, hk] at h
      cases he : expressionP f ts (i + 1) with
      | error pe => simp only [he] at h; simp at h
      | ok ik =>
        obtain ⟨inner, k⟩ := ik
        simp only [he] at h
        cases harp : advanceIfEq ts [.RightParen] k with
        | none => simp only [harp] at h; simp at h
        | some pk =>
          obtain ⟨p, k1⟩ := pk
          simp only [harp] at h
          obtain ⟨rfl, hklen, rp, hrp, hrpk, hcont⟩ := advanceIfEq_some harp
          have hp : p = .RightParen := by
            simpa using hcont
          obtain ⟨h1, h2⟩ := (parseProgress f ts).1 (i + 1) inner k he
          simp only [Except.ok.injEq, Prod.mk.injEq] at h
          obtain ⟨-, rfl⟩ := h
          exact ⟨by omega, rp, by simpa using hrp, hp ▸ hrpk⟩
  · intro ts fuel i hfuel
    obtain ⟨sExpr, sEqL, sComp, sCompL, sTerm, sTermL, sFact, sFactL, sUn, sPrim⟩ :=
      parseFuelSuff fuel ts
    exact ⟨sExpr i (by omega), sComp i (by omega), sTerm i (by omega),
      sFact i (by omega), sUn i (by omega), sPrim i (by omega)⟩
  · intro ts
    exact (parseFuelSuff (parseFuel ts) ts).1 0 (by simp only [parseFuel]; omega)

/-- Witness for C9 on the token list for `(1)`: `primary` consumes the whole
group, ending at cursor 3 with the closing parenthesis at index 2. -/
theorem C9_primary_progress_termination_witness :
    (0 < 3 ∧ 3 ≤ 4) ∧
    (0 + 2 ≤ 3 ∧
      ∃ rp, ([⟨.LeftParen, "(", 1⟩, numTok "1", ⟨.RightParen, ")", 1⟩, eofTok] :
          List Token)[3 - 1]? = some rp ∧ rp.kind = .RightParen) :=
  ⟨C9_primary_progress_termination.1
      [⟨.LeftParen, "(", 1⟩, numTok "1", ⟨.RightParen, ")", 1⟩, eofTok] 100 0
      (.literal (.num 1)) 3 (by decide),
   C9_primary_progress_termination.2.2.1
      [⟨.LeftParen, "(", 1⟩, numTok "1", ⟨.RightParen, ")", 1⟩, eofTok] 100 0
      ⟨.LeftParen, "(", 1⟩ (.literal (.num 1)) 3 (by decide) (by decide) (by decide)⟩

/-- C1 counterexample: on the token sequence `1 2 Eof` parsing succeeds,
returning the root `Literal 1` with final cursor 1, while the token at the
final cursor is a `NumberLiteral` — a token before the trailing `Eof` that was
never consumed and is silently ignored. -/
theorem C1_counterexample :
    parse [numTok "1", numTok "2", eofTok] = .ok (.literal (.num 1), 1) ∧
    ([numTok "1", numTok "2", eofTok] : List Token)[1]?.map Token.kind =
      some .NumLiteral := by
  decide

/-- C1 (amended): on success `parse` returns one root expression parsed from a
nonempty prefix of the token list — the final cursor `j` satisfies
`0 < j ≤ length` — but the parser does not check that the prefix covers all
tokens before the trailing `Eof`; trailing tokens are silently ignored. -/
theorem C1_parse_prefix :
    ∀ ts e j, parse ts = .ok (e, j) → 0 < j ∧ j ≤ ts.length :=
  fun ts e j h => (parseProgress (parseFuel ts) ts).1 0 e j h

/-- Witness for C1 on the token list `1 Eof`. -/
theorem C1_parse_prefix_witness : 0 < 1 ∧ 1 ≤ 2 :=
  C1_parse_prefix [numTok "1", eofTok] (.literal (.num 1)) 1 (by decide)

/-! ## Scanner infrastructure lemmas -/

theorem utf8Len_append (a b : List Char) :
    utf8Len (a ++ b) = utf8Len a + utf8Len b := by
  induction a with
  | nil => simp [utf8Len]
  | cons c r ih => simp [utf8Len, ih]; omega

theorem utf8Len_take_le (l : List Char) (p : Nat) :
    utf8Len (l.take p) ≤ utf8Len l := by
  conv_rhs => rw [← List.take_append_drop p l]
  rw [utf8Len_append]
  omega

theorem utf8Len_take_add (l : List Char) (m n : Nat) :
    utf8Len (l.take (m + n)) = utf8Len (l.take m) + utf8Len ((l.drop m).take n) := by
  rw [List.take_add, utf8Len_append]

theorem take_add_drop (l : List Char) (m n : Nat) (hm : m ≤ l.length) :
    (l.take (m + n)).drop m = (l.drop m).take n := by
  rw [List.take_add]
  exact List.drop_left' (by simp [hm])

theorem takeWhile_length_le (p : Char → Bool) (l : List Char) :
    (l.takeWhile p).length ≤ l.length := by
  induction l with
  | nil => simp
  | cons c r ih =>
    by_cases hp : p c
    · simp only [List.takeWhile, hp]
      simpa using ih
    · simp [List.takeWhile, hp]

theorem takeWhile_eq_take (p : Char → Bool) (l : List Char) :
    l.takeWhile p = l.take (l.takeWhile p).length := by
  induction l with
  | nil => simp
  | cons c r ih =>
    by_cases hp : p c
    · simp only [List.takeWhile, hp]
      simpa using ih
    · simp [List.takeWhile, hp]

theorem takeWhile_all_head (p : Char → Bool) (ds rest : List Char)
    (h : ∀ c ∈ ds, p c) (h2 : ∀ c ∈ rest.head?, p c = false) :
    (ds ++ rest).takeWhile p = ds := by
  induction ds with
  | nil =>
    simp only [List.nil_append]
    cases rest with
    | nil => rfl
    | cons r rs =>
      simp only [List.head?] at h2
      simp [List.takeWhile, h2 r rfl]
  | cons d ds ih =>
    have hd : p d = true := h d (by simp)
    simp only [List.cons_append, List.takeWhile, hd, List.append_eq]
    rw [ih (fun c hc => h c (by simp [hc]))]

theorem charIdxAt_utf8Len (l : List Char) (p : Nat) (hp : p ≤ l.length) :
    charIdxAt l (utf8Len (l.take p)) = some p := by
  induction l generalizing p with
  | nil =>
    have : p = 0 := by simpa using hp
    subst this
    simp [charIdxAt, utf8Len]
  | cons c rest ih =>
    cases p with
    | zero => simp [charIdxAt, utf8Len]
    | succ q =>
      have hq : q ≤ rest.length := by simpa using hp
      have hb : utf8Len ((c :: rest).take (q + 1)) = c.utf8Size + utf8Len (rest.take q) := by
        simp [utf8Len]
      rw [hb]
      have hsz : 0 < c.utf8Size := Char.utf8Size_pos c
      obtain ⟨m, hm⟩ : ∃ m, c.utf8Size + utf8Len (rest.take q) = m + 1 :=
        ⟨c.utf8Size + utf8Len (rest.take q) - 1, by omega⟩
      rw [hm]
      simp only [charIdxAt]
      rw [if_pos (by omega)]
      have hmm : m + 1 - c.utf8Size = utf8Len (rest.take q) := by omega
      rw [hmm, ih q hq]
      rfl

theorem utf8Slice_take_drop (l : List Char) (p q : Nat) (hpq : p ≤ q)
    (hq : q ≤ l.length) :
    utf8Slice l (utf8Len (l.take p)) (utf8Len (l.take q)) =
      some ((l.take q).drop p) := by
  unfold utf8Slice
  rw [charIdxAt_utf8Len l p (le_trans hpq hq), charIdxAt_utf8Len l q hq]
  simp [hpq]

theorem charNe_of_toNat {c d : Char} (h : c.toNat ≠ d.toNat) : c ≠ d :=
  fun he => h (he ▸ rfl)

/-- An ASCII digit is distinct from every character the `scan_token` match
tests before the digit guard. -/
theorem digit_class {c : Char} (h : isAsciiDigit c = true) :
    c ≠ '(' ∧ c ≠ ')' ∧ c ≠ '{' ∧ c ≠ '}' ∧ c ≠ ',' ∧ c ≠ '.' ∧ c ≠ '-' ∧ c ≠ '+' ∧
    c ≠ ';' ∧ c ≠ '*' ∧ c ≠ '!' ∧ c ≠ '=' ∧ c ≠ '<' ∧ c ≠ '>' ∧ c ≠ '/' ∧ c ≠ '\n' ∧
    c ≠ '"' ∧ rustWhitespace c = false := by
  refine ⟨?_, ?_, ?_, ?_, ?_, ?_, ?_, ?_, ?_, ?_, ?_, ?_, ?_, ?_, ?_, ?_, ?_, ?_⟩
  all_goals
    first
    | (rintro rfl
       exact absurd h (by decide))
    | (cases hw : rustWhitespace c
       · rfl
       · exfalso
         simp only [rustWhitespace, Bool.or_eq_true, decide_eq_true_eq] at hw
         rcases hw with ((((rfl | rfl) | rfl) | rfl) | rfl) | rfl <;>
           exact absurd h (by decide))

/-- A character in the modelled `XID_Start` class is distinct from every
character the `scan_token` match tests before the identifier guard. -/
theorem xid_class {c : Char} (h : isXidStart c = true) :
    c ≠ '(' ∧ c ≠ ')' ∧ c ≠ '{' ∧ c ≠ '}' ∧ c ≠ ',' ∧ c ≠ '.' ∧ c ≠ '-' ∧ c ≠ '+' ∧
    c ≠ ';' ∧ c ≠ '*' ∧ c ≠ '!' ∧ c ≠ '=' ∧ c ≠ '<' ∧ c ≠ '>' ∧ c ≠ '/' ∧ c ≠ '\n' ∧
    c ≠ '"' ∧ rustWhitespace c = false ∧ isAsciiDigit c = false := by
  refine ⟨?_, ?_, ?_, ?_, ?_, ?_, ?_, ?_, ?_, ?_, ?_, ?_, ?_, ?_, ?_, ?_, ?_, ?_, ?_⟩
  all_goals
    first
    | (rintro rfl
       exact absurd h (by decide))
    | (cases hw : rustWhitespace c
       · rfl
       · exfalso
         simp only [rustWhitespace, Bool.or_eq_true, decide_eq_true_eq] at hw
         rcases hw with ((((rfl | rfl) | rfl) | rfl) | rfl) | rfl <;>
           exact absurd h (by decide))
    | (cases hd : isAsciiDigit c
       · rfl
       · exfalso
         simp only [isXidStart, isAsciiDigit, Bool.or_eq_true, Bool.and_eq_true,
           decide_eq_true_eq] at h hd
         omega)

/-! ## Scanner step lemmas -/

theorem drop_pos_cons {src : List Char} {p : Nat} {c : Char}
    (h : src[p]? = some c) : src.drop p = c :: src.drop (p + 1) := by
  obtain ⟨hlt, hc⟩ := List.getElem?_eq_some.mp h
  rw [List.drop_eq_getElem_cons hlt, hc]

theorem consumed_cons {src : List Char} {p : Nat} {c : Char} (k : Nat)
    (h : src[p]? = some c) :
    (src.take (p + (1 + k))).drop p = c :: (src.drop (p + 1)).take k := by
  have hlt : p < src.length := (List.getElem?_eq_some.mp h).1
  rw [take_add_drop src p (1 + k) (le_of_lt hlt)]
  rw [drop_pos_cons h, Nat.add_comm 1 k]
  simp

theorem nextIfEq_true {st : ScanState} {exp : Char}
    (h : (nextIfEq st exp).1 = true) :
    st.source[st.pos]? = some exp ∧
    (nextIfEq st exp).2 =
      { st with pos := st.pos + 1, current := st.current + exp.utf8Size } := by
  unfold nextIfEq
  unfold nextIfEq at h
  cases hx : st.source[st.pos]? with
  | none => simp only [hx] at h; simp at h
  | some c =>
    simp only [hx] at h ⊢
    by_cases hc : c = exp
    · subst hc; simp
    · simp [hc] at h

theorem nextIfEq_false {st : ScanState} {exp : Char}
    (h : (nextIfEq st exp).1 = false) :
    (nextIfEq st exp).2 = st := by
  unfold nextIfEq
  unfold nextIfEq at h
  cases hx : st.source[st.pos]? with
  | none => simp [hx]
  | some c =>
    simp only [hx] at h ⊢
    by_cases hc : c = exp
    · subst hc; simp at h
    · simp [hc]

theorem nextWhile_spec (st : ScanState) (pr : Char → Bool) :
    (nextWhile st pr).source = st.source ∧
    (nextWhile st pr).start = st.start ∧
    (nextWhile st pr).line = st.line ∧
    (nextWhile st pr).pos = st.pos + ((st.source.drop st.pos).takeWhile pr).length ∧
    (nextWhile st pr).current = st.current + utf8Len ((st.source.drop st.pos).takeWhile pr) :=
  ⟨rfl, rfl, rfl, rfl, rfl⟩

theorem decimalPoint_true {st : ScanState} (h : decimalPoint st = true) :
    st.source[st.pos]? = some '.' ∧
    ∃ d, st.source[st.pos + 1]? = some d ∧ isAsciiDigit d = true := by
  unfold decimalPoint at h
  simp only [Bool.and_eq_true, beq_iff_eq, Option.isSome_iff_exists] at h
  obtain ⟨h1, d, hd⟩ := h
  cases hx : st.source[st.pos + 1]? with
  | none => rw [hx] at hd; simp [Option.filter] at hd
  | some e =>
    rw [hx] at hd
    simp only [Option.filter] at hd
    split at hd
    · exact ⟨h1, e, rfl, by assumption⟩
    · simp at hd

theorem stringScan_some {l : List Char} {n : Nat} {nl : Int}
    (h : stringScan l = some (n, nl)) :
    1 ≤ n ∧ n ≤ l.length ∧
    ∃ mid, l.take n = mid ++ ['"'] ∧ mid.all (· != '"') ∧ n = mid.length + 1 := by
  induction l generalizing n nl with
  | nil => simp [stringScan] at h
  | cons c rest ih =>
    simp only [stringScan] at h
    by_cases hc : c = '"'
    · subst hc
      rw [if_pos rfl] at h
      simp only [Option.some.injEq, Prod.mk.injEq] at h
      obtain ⟨rfl, -⟩ := h
      exact ⟨le_rfl, by simp only [List.length_cons]; omega, [], by simp, rfl, rfl⟩
    · rw [if_neg hc] at h
      cases hs : stringScan rest with
      | none => rw [hs] at h; simp at h
      | some nk =>
        obtain ⟨n', nl'⟩ := nk
        rw [hs] at h
        simp only [Option.map_some', Option.some.injEq, Prod.mk.injEq] at h
        obtain ⟨rfl, -⟩ := h
        obtain ⟨h1, h2, mid, hmid, hq, hn⟩ := ih hs
        refine ⟨by omega, by simpa using h2, c :: mid, ?_, ?_,
          by simp only [List.length_cons]; omega⟩
        · simp [hmid]
        · simp only [List.all_cons, Bool.and_eq_true]
          exact ⟨by simpa using hc, hq⟩

theorem utf8Len_take_succ {src : List Char} {P : Nat} {c : Char}
    (hc : src[P]? = some c) :
    utf8Len (src.take (P + 1)) = utf8Len (src.take P) + c.utf8Size := by
  rw [utf8Len_take_add src P 1, drop_pos_cons hc]
  simp [utf8Len]

theorem utf8Len_take_run {src : List Char} {p : Nat} (pr : Char → Bool) :
    utf8Len (src.take (p + ((src.drop p).takeWhile pr).length)) =
      utf8Len (src.take p) + utf8Len ((src.drop p).takeWhile pr) := by
  rw [utf8Len_take_add src p _]
  rw [← takeWhile_eq_take pr (src.drop p)]

theorem take_run_append (l : List Char) (pr : Char → Bool) (n : Nat) :
    l.take ((l.takeWhile pr).length + n) =
      l.takeWhile pr ++ (l.drop (l.takeWhile pr).length).take n := by
  rw [List.take_add]
  congr 1
  exact (takeWhile_eq_take pr l).symm

theorem take_cons_of_pos {src : List Char} {p : Nat} {c : Char}
    (h : src[p]? = some c) (k : Nat) :
    (src.drop p).take (1 + k) = c :: (src.drop (p + 1)).take k := by
  rw [drop_pos_cons h, Nat.add_comm 1 k]
  simp

theorem keywordLookup_ne_ident {s : String} {k : TokenType}
    (h : keywordLookup s = k) (hk : k ≠ .Identifier) : s = keywordString k := by
  unfold keywordLookup at h
  split at h <;>
    first
    | (subst h; rfl)
    | (subst h; exact absurd rfl hk)

theorem keywordLookup_cases (s : String) :
    keywordLookup s ∈ [TokenType.And, .Class, .Else, .False, .For, .Fun, .If, .Nil,
      .Or, .Print, .Return, .Super, .This, .True, .Var, .While, .Identifier] := by
  unfold keywordLookup
  split <;> simp

theorem goodLex_keyword {k : TokenType} {l : List Char}
    (hk : keywordLookup (String.mk l) = k) (hne : k ≠ .Identifier) :
    goodLex k l = true := by
  have hs := keywordLookup_ne_ident hk hne
  have hl : l = (keywordString k).data := congrArg String.data hs
  have hmem := keywordLookup_cases (String.mk l)
  rw [hk] at hmem
  subst hl
  simp only [List.mem_cons, List.not_mem_nil, or_false] at hmem
  rcases hmem with rfl | rfl | rfl | rfl | rfl | rfl | rfl | rfl | rfl | rfl | rfl |
    rfl | rfl | rfl | rfl | rfl | rfl <;>
    first
    | decide
    | exact absurd rfl hne

theorem nextc_some {st : ScanState} {c : Char} (h : st.source[st.pos]? = some c) :
    nextc st = (some c,
      { st with pos := st.pos + 1, current := st.current + c.utf8Size }) := by
  simp [nextc, h]

theorem scanKindConc_mk {st st' : ScanState} {k : TokenType}
    (hsrc : st'.source = st.source) (hstt : st'.start = st.start)
    (hlt : st.pos < st'.pos) (hle : st'.pos ≤ st.source.length)
    (hcur' : st'.current = utf8Len (st.source.take st'.pos))
    (hkE : k ≠ .Eof)
    (hgl : k ≠ .Whitespace → goodLex k ((st.source.take st'.pos).drop st.pos) = true) :
    ScanKindConc st k st' :=
  ⟨hsrc, hstt, le_of_lt hlt, hle, hcur',
   iff_of_false hkE (by omega),
   fun hx => absurd hx hkE,
   fun _ => hlt,
   fun _ hw => hgl hw⟩

theorem scanKindConc_ws {st st' : ScanState}
    (hsrc : st'.source = st.source) (hstt : st'.start = st.start)
    (hlt : st.pos < st'.pos) (hle : st'.pos ≤ st.source.length)
    (hcur' : st'.current = utf8Len (st.source.take st'.pos)) :
    ScanKindConc st .Whitespace st' :=
  scanKindConc_mk hsrc hstt hlt hle hcur' (by decide) (fun hw => absurd rfl hw)

/-- A branch of `scan_token` that consumed exactly the one character `c`. -/
theorem scanKind_one {st : ScanState} {c : Char} {k : TokenType}
    (hcur : st.current = utf8Len (st.source.take st.pos))
    (hc : st.source[st.pos]? = some c)
    (hkE : k ≠ .Eof)
    (hgl : k ≠ .Whitespace → goodLex k [c] = true)
    (line' : Int) :
    ScanKindConc st k
      { source := st.source, pos := st.pos + 1, start := st.start,
        current := st.current + c.utf8Size, line := line' } := by
  have hlt : st.pos < st.source.length := (List.getElem?_eq_some.mp hc).1
  have hcons1 : (st.source.take (st.pos + 1)).drop st.pos = [c] := by
    simpa using consumed_cons 0 hc
  refine scanKindConc_mk rfl rfl (by simp) (by simpa using hlt) ?_ hkE ?_
  · show st.current + c.utf8Size = utf8Len (st.source.take (st.pos + 1))
    rw [hcur]
    exact (utf8Len_take_succ hc).symm
  · intro hw
    show goodLex k ((st.source.take (st.pos + 1)).drop st.pos) = true
    rw [hcons1]
    exact hgl hw

/-- A branch of `scan_token` that consumed exactly the two characters
`c`, `d`. -/
theorem scanKind_two {st : ScanState} {c d : Char} {k : TokenType}
    (hcur : st.current = utf8Len (st.source.take st.pos))
    (hc : st.source[st.pos]? = some c)
    (hd : st.source[st.pos + 1]? = some d)
    (hkE : k ≠ .Eof)
    (hgl : k ≠ .Whitespace → goodLex k [c, d] = true) :
    ScanKindConc st k
      { source := st.source, pos := st.pos + 1 + 1, start := st.start,
        current := st.current + c.utf8Size + d.utf8Size, line := st.line } := by
  have hlt : st.pos + 1 < st.source.length := (List.getElem?_eq_some.mp hd).1
  have hcons2 : (st.source.take (st.pos + 1 + 1)).drop st.pos = [c, d] := by
    have h1 := consumed_cons 1 hc
    have h2 : (st.source.drop (st.pos + 1)).take 1 = [d] := by
      rw [drop_pos_cons hd]
      simp
    rw [h2] at h1
    have heq : st.pos + (1 + 1) = st.pos + 1 + 1 := by omega
    rw [heq] at h1
    exact h1
  refine scanKindConc_mk rfl rfl (by show st.pos < st.pos + 1 + 1; omega)
    (by simpa using hlt) ?_ hkE ?_
  · show st.current + c.utf8Size + d.utf8Size = utf8Len (st.source.take (st.pos + 1 + 1))
    rw [hcur, utf8Len_take_succ hd, utf8Len_take_succ hc]
  · intro hw
    show goodLex k ((st.source.take (st.pos + 1 + 1)).drop st.pos) = true
    rw [hcons2]
    exact hgl hw

theorem stringTok_ok {st : ScanState} {k : TokenType} {st' : ScanState}
    (h : stringTok st = .ok (k, st')) :
    k = .StringLiteral ∧
    ∃ n nl, stringScan (st.source.drop st.pos) = some (n, nl) ∧
      st' = { st with
        pos := st.pos + n
        current := st.current + utf8Len ((st.source.drop st.pos).take n)
        line := st.line + nl } := by
  unfold stringTok at h
  cases hs : stringScan (st.source.drop st.pos) with
  | none => rw [hs] at h; simp at h
  | some nk =>
    obtain ⟨n, nl⟩ := nk
    rw [hs] at h
    simp only [Except.ok.injEq, Prod.mk.injEq] at h
    obtain ⟨hk, hst⟩ := h
    exact ⟨hk.symm, n, nl, rfl, hst.symm⟩

/-- The `"` branch of `scan_token`. -/
theorem scanKind_string {st : ScanState} {k : TokenType} {st' : ScanState}
    (hcur : st.current = utf8Len (st.source.take st.pos))
    (hc : st.source[st.pos]? = some '"')
    (h : stringTok { st with
        pos := st.pos + 1
        current := st.current + '"'.utf8Size } = .ok (k, st')) :
    ScanKindConc st k st' := by
  have hlt : st.pos < st.source.length := (List.getElem?_eq_some.mp hc).1
  obtain ⟨rfl, n, nl, hscan, rfl⟩ := stringTok_ok h
  have hscan' : stringScan (st.source.drop (st.pos + 1)) = some (n, nl) := hscan
  obtain ⟨hn1, hn2, mid, hmid, hquote, hnlen⟩ := stringScan_some hscan'
  have hlend : (st.source.drop (st.pos + 1)).length = st.source.length - (st.pos + 1) :=
    List.length_drop _ _
  have hA : st.current + '"'.utf8Size = utf8Len (st.source.take (st.pos + 1)) := by
    rw [hcur]
    exact (utf8Len_take_succ hc).symm
  refine scanKindConc_mk rfl rfl ?_ ?_ ?_ (by decide) ?_
  · show st.pos < st.pos + 1 + n
    omega
  · show st.pos + 1 + n ≤ st.source.length
    omega
  · show st.current + '"'.utf8Size + utf8Len ((st.source.drop (st.pos + 1)).take n) =
      utf8Len (st.source.take (st.pos + 1 + n))
    rw [hA]
    exact (utf8Len_take_add st.source (st.pos + 1) n).symm
  · intro _
    show goodLex .StringLiteral ((st.source.take (st.pos + 1 + n)).drop st.pos) = true
    have hcons := consumed_cons n hc
    have heq : st.pos + (1 + n) = st.pos + 1 + n := by omega
    rw [heq] at hcons
    rw [hcons, hmid]
    simp [goodLex, List.dropLast_concat, List.getLast?_concat, hquote]

/-- The `//` comment branch of `scan_token`. -/
theorem scanKind_comment {st : ScanState}
    (hcur : st.current = utf8Len (st.source.take st.pos))
    (hc : st.source[st.pos]? = some '/')
    (hs : st.source[st.pos + 1]? = some '/') :
    ScanKindConc st .Whitespace
      (nextWhile { st with
        pos := st.pos + 1 + 1
        current := st.current + '/'.utf8Size + '/'.utf8Size } (fun d => d != '\n')) := by
  have hlt2 : st.pos + 1 < st.source.length := (List.getElem?_eq_some.mp hs).1
  have hrl := takeWhile_length_le (fun d => d != '\n') (st.source.drop (st.pos + 1 + 1))
  have hlend : (st.source.drop (st.pos + 1 + 1)).length = st.source.length - (st.pos + 1 + 1) :=
    List.length_drop _ _
  refine scanKindConc_ws rfl rfl ?_ ?_ ?_
  · show st.pos < st.pos + 1 + 1 +
      ((st.source.drop (st.pos + 1 + 1)).takeWhile (fun d => d != '\n')).length
    omega
  · show st.pos + 1 + 1 +
      ((st.source.drop (st.pos + 1 + 1)).takeWhile (fun d => d != '\n')).length ≤
        st.source.length
    omega
  · show st.current + '/'.utf8Size + '/'.utf8Size +
      utf8Len ((st.source.drop (st.pos + 1 + 1)).takeWhile (fun d => d != '\n')) =
      utf8Len (st.source.take (st.pos + 1 + 1 +
        ((st.source.drop (st.pos + 1 + 1)).takeWhile (fun d => d != '\n')).length))
    rw [hcur, ← utf8Len_take_succ hc, ← utf8Len_take_succ hs]
    exact (utf8Len_take_run _).symm

/-- The digit branch of `scan_token` when the decimal-point lookahead fails. -/
theorem scanKind_number_nofrac {st : ScanState} {c : Char}
    (hcur : st.current = utf8Len (st.source.take st.pos))
    (hc : st.source[st.pos]? = some c)
    (hdg : isAsciiDigit c = true) :
    ScanKindConc st .NumberLiteral
      (nextWhile { st with
        pos := st.pos + 1
        current := st.current + c.utf8Size } isAsciiDigit) := by
  have hlt : st.pos < st.source.length := (List.getElem?_eq_some.mp hc).1
  have hrl := takeWhile_length_le isAsciiDigit (st.source.drop (st.pos + 1))
  have hlend : (st.source.drop (st.pos + 1)).length = st.source.length - (st.pos + 1) :=
    List.length_drop _ _
  refine scanKindConc_mk rfl rfl ?_ ?_ ?_ (by decide) ?_
  · show st.pos < st.pos + 1 + ((st.source.drop (st.pos + 1)).takeWhile isAsciiDigit).length
    omega
  · show st.pos + 1 + ((st.source.drop (st.pos + 1)).takeWhile isAsciiDigit).length ≤
      st.source.length
    omega
  · show st.current + c.utf8Size +
      utf8Len ((st.source.drop (st.pos + 1)).takeWhile isAsciiDigit) =
      utf8Len (st.source.take (st.pos + 1 +
        ((st.source.drop (st.pos + 1)).takeWhile isAsciiDigit).length))
    rw [hcur, ← utf8Len_take_succ hc]
    exact (utf8Len_take_run _).symm
  · intro _
    show goodLex .NumberLiteral
      ((st.source.take (st.pos + 1 +
        ((st.source.drop (st.pos + 1)).takeWhile isAsciiDigit).length)).drop st.pos) = true
    have hcons := consumed_cons
      ((st.source.drop (st.pos + 1)).takeWhile isAsciiDigit).length hc
    have heq : st.pos + (1 + ((st.source.drop (st.pos + 1)).takeWhile isAsciiDigit).length) =
        st.pos + 1 + ((st.source.drop (st.pos + 1)).takeWhile isAsciiDigit).length := by
      omega
    rw [heq] at hcons
    rw [hcons, ← takeWhile_eq_take isAsciiDigit (st.source.drop (st.pos + 1))]
    have hall : ∀ x ∈ c :: (st.source.drop (st.pos + 1)).takeWhile isAsciiDigit,
        isAsciiDigit x = true := by
      intro x hx
      rcases List.mem_cons.mp hx with rfl | hx
      · exact hdg
      · exact List.mem_takeWhile_imp hx
    have htw := List.takeWhile_eq_self_iff.mpr hall
    simp [goodLex, htw, List.drop_length]


/-- Lexeme shape of a fractional number literal. -/
theorem goodLex_number_shape {c : Char} {r1 r2 : List Char}
    (hc : isAsciiDigit c = true)
    (h1 : ∀ x ∈ r1, isAsciiDigit x = true)
    (h2 : ∀ x ∈ r2, isAsciiDigit x = true)
    (hr2 : r2 ≠ []) :
    goodLex .NumberLiteral (c :: (r1 ++ '.' :: r2)) = true := by
  cases r2 with
  | nil => exact absurd rfl hr2
  | cons e es =>
    have htw : (c :: (r1 ++ '.' :: e :: es)).takeWhile isAsciiDigit = c :: r1 := by
      have hsplit : (c :: (r1 ++ '.' :: e :: es)) = (c :: r1) ++ '.' :: e :: es := by simp
      rw [hsplit]
      apply takeWhile_all_head
      · intro x hx
        rcases List.mem_cons.mp hx with rfl | hx
        · exact hc
        · exact h1 x hx
      · intro x hx
        simp only [List.head?, Option.mem_def, Option.some.injEq] at hx
        subst hx
        decide
    have hdrop : (c :: (r1 ++ '.' :: e :: es)).drop (c :: r1).length = '.' :: e :: es := by
      rw [List.length_cons, List.drop_succ_cons, List.drop_left]
    have hall2 : (e :: es).all isAsciiDigit = true :=
      List.all_eq_true.mpr (fun x hx => h2 x hx)
    simp only [goodLex, htw, hdrop]
    simp [hall2]

/-- The digit branch of `scan_token` when the decimal-point lookahead
succeeds: the scanner consumes the first digit run, the `.`, and a second
digit run. -/
theorem scanKind_number_frac {st : ScanState} {c d : Char}
    (hcur : st.current = utf8Len (st.source.take st.pos))
    (hc : st.source[st.pos]? = some c)
    (hdg : isAsciiDigit c = true)
    (hdot : st.source[st.pos + 1 + ((st.source.drop (st.pos + 1)).takeWhile isAsciiDigit).length]? = some '.')
    (hd2 : st.source[st.pos + 1 + ((st.source.drop (st.pos + 1)).takeWhile isAsciiDigit).length + 1]? = some d)
    (hdd : isAsciiDigit d = true) :
    ScanKindConc st .NumberLiteral
      (nextWhile (nextc (nextWhile { st with
        pos := st.pos + 1
        current := st.current + c.utf8Size } isAsciiDigit)).2 isAsciiDigit) := by
  have hlt : st.pos < st.source.length := (List.getElem?_eq_some.mp hc).1
  have hlt2 : st.pos + 1 + ((st.source.drop (st.pos + 1)).takeWhile isAsciiDigit).length + 1 < st.source.length :=
    (List.getElem?_eq_some.mp hd2).1
  show ScanKindConc st .NumberLiteral
    (nextWhile (nextc { st with
      pos := st.pos + 1 + ((st.source.drop (st.pos + 1)).takeWhile isAsciiDigit).length
      current := st.current + c.utf8Size + utf8Len ((st.source.drop (st.pos + 1)).takeWhile isAsciiDigit) }).2 isAsciiDigit)
  rw [congrArg Prod.snd (@nextc_some { st with
      pos := st.pos + 1 + ((st.source.drop (st.pos + 1)).takeWhile isAsciiDigit).length
      current := st.current + c.utf8Size + utf8Len ((st.source.drop (st.pos + 1)).takeWhile isAsciiDigit) } '.' hdot)]
  have hrl2 := takeWhile_length_le isAsciiDigit
    (st.source.drop (st.pos + 1 + ((st.source.drop (st.pos + 1)).takeWhile isAsciiDigit).length + 1))
  have hlend2 : (st.source.drop (st.pos + 1 + ((st.source.drop (st.pos + 1)).takeWhile isAsciiDigit).length + 1)).length =
      st.source.length - (st.pos + 1 + ((st.source.drop (st.pos + 1)).takeWhile isAsciiDigit).length + 1) := List.length_drop _ _
  refine scanKindConc_mk rfl rfl ?_ ?_ ?_ (by decide) ?_
  · show st.pos < st.pos + 1 + ((st.source.drop (st.pos + 1)).takeWhile isAsciiDigit).length + 1 +
      ((st.source.drop (st.pos + 1 + ((st.source.drop (st.pos + 1)).takeWhile isAsciiDigit).length + 1)).takeWhile isAsciiDigit).length
    omega
  · show st.pos + 1 + ((st.source.drop (st.pos + 1)).takeWhile isAsciiDigit).length + 1 +
      ((st.source.drop (st.pos + 1 + ((st.source.drop (st.pos + 1)).takeWhile isAsciiDigit).length + 1)).takeWhile isAsciiDigit).length ≤
        st.source.length
    omega
  · show st.current + c.utf8Size + utf8Len ((st.source.drop (st.pos + 1)).takeWhile isAsciiDigit) + '.'.utf8Size +
      utf8Len ((st.source.drop (st.pos + 1 + ((st.source.drop (st.pos + 1)).takeWhile isAsciiDigit).length + 1)).takeWhile isAsciiDigit) =
      utf8Len (st.source.take (st.pos + 1 + ((st.source.drop (st.pos + 1)).takeWhile isAsciiDigit).length + 1 +
        ((st.source.drop (st.pos + 1 + ((st.source.drop (st.pos + 1)).takeWhile isAsciiDigit).length + 1)).takeWhile isAsciiDigit).length))
    rw [hcur, ← utf8Len_take_succ hc, ← utf8Len_take_run isAsciiDigit,
      ← utf8Len_take_succ hdot]
    exact (utf8Len_take_run isAsciiDigit).symm
  · intro _
    show goodLex .NumberLiteral
      ((st.source.take (st.pos + 1 + ((st.source.drop (st.pos + 1)).takeWhile isAsciiDigit).length + 1 +
        ((st.source.drop (st.pos + 1 + ((st.source.drop (st.pos + 1)).takeWhile isAsciiDigit).length + 1)).takeWhile isAsciiDigit).length)).drop
          st.pos) = true
    have hcons := consumed_cons (((st.source.drop (st.pos + 1)).takeWhile isAsciiDigit).length + (1 +
      ((st.source.drop (st.pos + 1 + ((st.source.drop (st.pos + 1)).takeWhile isAsciiDigit).length + 1)).takeWhile isAsciiDigit).length)) hc
    have heq : st.pos + (1 + (((st.source.drop (st.pos + 1)).takeWhile isAsciiDigit).length + (1 +
        ((st.source.drop (st.pos + 1 + ((st.source.drop (st.pos + 1)).takeWhile isAsciiDigit).length + 1)).takeWhile isAsciiDigit).length))) =
        st.pos + 1 + ((st.source.drop (st.pos + 1)).takeWhile isAsciiDigit).length + 1 +
          ((st.source.drop (st.pos + 1 + ((st.source.drop (st.pos + 1)).takeWhile isAsciiDigit).length + 1)).takeWhile isAsciiDigit).length := by
      omega
    rw [heq] at hcons
    rw [take_run_append (st.source.drop (st.pos + 1)) isAsciiDigit _] at hcons
    rw [List.drop_drop] at hcons
    rw [take_cons_of_pos hdot _] at hcons
    rw [← takeWhile_eq_take isAsciiDigit (st.source.drop (st.pos + 1 + ((st.source.drop (st.pos + 1)).takeWhile isAsciiDigit).length + 1))]
      at hcons
    rw [hcons]
    apply goodLex_number_shape hdg
    · intro x hx
      exact List.mem_takeWhile_imp hx
    · intro x hx
      exact List.mem_takeWhile_imp hx
    · rw [drop_pos_cons hd2]
      simp [List.takeWhile, hdd]

/-- The identifier branch of `scan_token`: the internal keyword-lookup slice
succeeds and returns exactly the consumed characters, and the branch
satisfies the step contract. -/
theorem scanKind_ident {st : ScanState} {c : Char}
    (hcur : st.current = utf8Len (st.source.take st.pos))
    (hstart : st.start = st.current)
    (hc : st.source[st.pos]? = some c)
    (hx : isXidStart c = true) :
    utf8Slice st.source st.start
        (st.current + c.utf8Size + utf8Len ((st.source.drop (st.pos + 1)).takeWhile isXidCont)) =
      some (c :: ((st.source.drop (st.pos + 1)).takeWhile isXidCont)) ∧
    ScanKindConc st
      (keywordLookup (String.mk (c :: ((st.source.drop (st.pos + 1)).takeWhile isXidCont))))
      (nextWhile { st with
        pos := st.pos + 1
        current := st.current + c.utf8Size } isXidCont) := by
  have hlt : st.pos < st.source.length := (List.getElem?_eq_some.mp hc).1
  have hrl := takeWhile_length_le isXidCont (st.source.drop (st.pos + 1))
  have hlend : (st.source.drop (st.pos + 1)).length = st.source.length - (st.pos + 1) :=
    List.length_drop _ _
  have hcur2 : st.current + c.utf8Size + utf8Len ((st.source.drop (st.pos + 1)).takeWhile isXidCont) =
      utf8Len (st.source.take (st.pos + 1 + ((st.source.drop (st.pos + 1)).takeWhile isXidCont).length)) := by
    rw [hcur, ← utf8Len_take_succ hc]
    exact (utf8Len_take_run isXidCont).symm
  have hcons := consumed_cons (((st.source.drop (st.pos + 1)).takeWhile isXidCont).length) hc
  have heq : st.pos + (1 + ((st.source.drop (st.pos + 1)).takeWhile isXidCont).length) = st.pos + 1 + ((st.source.drop (st.pos + 1)).takeWhile isXidCont).length := by omega
  rw [heq] at hcons
  rw [← takeWhile_eq_take isXidCont (st.source.drop (st.pos + 1))] at hcons
  have hslice : utf8Slice st.source st.start
      (st.current + c.utf8Size + utf8Len ((st.source.drop (st.pos + 1)).takeWhile isXidCont)) = some (c :: ((st.source.drop (st.pos + 1)).takeWhile isXidCont)) := by
    rw [hcur2, hstart, hcur]
    rw [utf8Slice_take_drop st.source st.pos (st.pos + 1 + ((st.source.drop (st.pos + 1)).takeWhile isXidCont).length) (by omega) (by omega)]
    rw [hcons]
  refine ⟨hslice, ?_⟩
  have hkmem := keywordLookup_cases (String.mk (c :: ((st.source.drop (st.pos + 1)).takeWhile isXidCont)))
  refine scanKindConc_mk rfl rfl ?_ ?_ ?_ ?_ ?_
  · show st.pos < st.pos + 1 + ((st.source.drop (st.pos + 1)).takeWhile isXidCont).length
    omega
  · show st.pos + 1 + ((st.source.drop (st.pos + 1)).takeWhile isXidCont).length ≤ st.source.length
    omega
  · exact hcur2
  · intro hEof
    rw [hEof] at hkmem
    exact absurd hkmem (by decide)
  · intro _
    show goodLex (keywordLookup (String.mk (c :: ((st.source.drop (st.pos + 1)).takeWhile isXidCont))))
      ((st.source.take (st.pos + 1 + ((st.source.drop (st.pos + 1)).takeWhile isXidCont).length)).drop st.pos) = true
    rw [hcons]
    by_cases hkid : keywordLookup (String.mk (c :: ((st.source.drop (st.pos + 1)).takeWhile isXidCont))) = .Identifier
    · rw [hkid]
      have hallx : ((st.source.drop (st.pos + 1)).takeWhile isXidCont).all isXidCont = true :=
        List.all_eq_true.mpr (fun x hxm => List.mem_takeWhile_imp hxm)
      simp [goodLex, hx, hallx, hkid]
    · exact goodLex_keyword rfl hkid


/-- The central step lemma: a successful `scanKind` from a well-formed state
satisfies the step contract `ScanKindConc`. -/
theorem scanKind_ok {st : ScanState} {k : TokenType} {st' : ScanState}
    (hP : st.pos ≤ st.source.length)
    (hcur : st.current = utf8Len (st.source.take st.pos))
    (hstart : st.start = st.current)
    (h : scanKind st = .ok (k, st')) :
    ScanKindConc st k st' := by
  unfold scanKind at h
  cases hc : st.source[st.pos]? with
  | none =>
    simp only [nextc, hc] at h
    simp only [Except.ok.injEq, Prod.mk.injEq] at h
    obtain ⟨rfl, rfl⟩ := h
    have hPL : st.pos = st.source.length := by
      have := List.getElem?_eq_none_iff.mp hc
      omega
    exact ⟨rfl, rfl, le_rfl, hP, hcur, by simp [hPL], fun _ => rfl,
      fun hne => absurd rfl hne, fun hne _ => absurd rfl hne⟩
  | some c =>
    have hlt : st.pos < st.source.length := (List.getElem?_eq_some.mp hc).1
    simp only [nextc_some hc] at h
    by_cases h1 : c = '('
    · subst h1
      rw [if_pos rfl] at h
      simp only [Except.ok.injEq, Prod.mk.injEq] at h
      obtain ⟨rfl, rfl⟩ := h
      exact scanKind_one hcur hc (by decide) (fun _ => by decide) st.line
    rw [if_neg h1] at h
    by_cases h2 : c = ')'
    · subst h2
      rw [if_pos rfl] at h
      simp only [Except.ok.injEq, Prod.mk.injEq] at h
      obtain ⟨rfl, rfl⟩ := h
      exact scanKind_one hcur hc (by decide) (fun _ => by decide) st.line
    rw [if_neg h2] at h
    by_cases h3 : c = '{'
    · subst h3
      rw [if_pos rfl] at h
      simp only [Except.ok.injEq, Prod.mk.injEq] at h
      obtain ⟨rfl, rfl⟩ := h
      exact scanKind_one hcur hc (by decide) (fun _ => by decide) st.line
    rw [if_neg h3] at h
    by_cases h4 : c = '}'
    · subst h4
      rw [if_pos rfl] at h
      simp only [Except.ok.injEq, Prod.mk.injEq] at h
      obtain ⟨rfl, rfl⟩ := h
      exact scanKind_one hcur hc (by decide) (fun _ => by decide) st.line
    rw [if_neg h4] at h
    by_cases h5 : c = ','
    · subst h5
      rw [if_pos rfl] at h
      simp only [Except.ok.injEq, Prod.mk.injEq] at h
      obtain ⟨rfl, rfl⟩ := h
      exact scanKind_one hcur hc (by decide) (fun _ => by decide) st.line
    rw [if_neg h5] at h
    by_cases h6 : c = '.'
    · subst h6
      rw [if_pos rfl] at h
      simp only [Except.ok.injEq, Prod.mk.injEq] at h
      obtain ⟨rfl, rfl⟩ := h
      exact scanKind_one hcur hc (by decide) (fun _ => by decide) st.line
    rw [if_neg h6] at h
    by_cases h7 : c = '-'
    · subst h7
      rw [if_pos rfl] at h
      simp only [Except.ok.injEq, Prod.mk.injEq] at h
      obtain ⟨rfl, rfl⟩ := h
      exact scanKind_one hcur hc (by decide) (fun _ => by decide) st.line
    rw [if_neg h7] at h
    by_cases h8 : c = '+'
    · subst h8
      rw [if_pos rfl] at h
      simp only [Except.ok.injEq, Prod.mk.injEq] at h
      obtain ⟨rfl, rfl⟩ := h
      exact scanKind_one hcur hc (by decide) (fun _ => by decide) st.line
    rw [if_neg h8] at h
    by_cases h9 : c = ';'
    · subst h9
      rw [if_pos rfl] at h
      simp only [Except.ok.injEq, Prod.mk.injEq] at h
      obtain ⟨rfl, rfl⟩ := h
      exact scanKind_one hcur hc (by decide) (fun _ => by decide) st.line
    rw [if_neg h9] at h
    by_cases h10 : c = '*'
    · subst h10
      rw [if_pos rfl] at h
      simp only [Except.ok.injEq, Prod.mk.injEq] at h
      obtain ⟨rfl, rfl⟩ := h
      exact scanKind_one hcur hc (by decide) (fun _ => by decide) st.line
    rw [if_neg h10] at h
    by_cases h11 : c = '!'
    · subst h11
      rw [if_pos rfl] at h
      split at h
      · rename_i st2 hne
        simp only [Except.ok.injEq, Prod.mk.injEq] at h
        obtain ⟨rfl, rfl⟩ := h
        obtain ⟨hd2, hsnd⟩ := nextIfEq_true (by rw [hne])
        have hst2 : st2 = _ := (congrArg Prod.snd hne).symm.trans hsnd
        rw [hst2]
        exact scanKind_two hcur hc hd2 (by decide) (fun _ => by decide)
      · rename_i st2 hne
        simp only [Except.ok.injEq, Prod.mk.injEq] at h
        obtain ⟨rfl, rfl⟩ := h
        have hst2 : st2 = _ :=
          (congrArg Prod.snd hne).symm.trans (nextIfEq_false (by rw [hne]))
        rw [hst2]
        exact scanKind_one hcur hc (by decide) (fun _ => by decide) st.line
    rw [if_neg h11] at h
    by_cases h12 : c = '='
    · subst h12
      rw [if_pos rfl] at h
      split at h
      · rename_i st2 hne
        simp only [Except.ok.injEq, Prod.mk.injEq] at h
        obtain ⟨rfl, rfl⟩ := h
        obtain ⟨hd2, hsnd⟩ := nextIfEq_true (by rw [hne])
        have hst2 : st2 = _ := (congrArg Prod.snd hne).symm.trans hsnd
        rw [hst2]
        exact scanKind_two hcur hc hd2 (by decide) (fun _ => by decide)
      · rename_i st2 hne
        simp only [Except.ok.injEq, Prod.mk.injEq] at h
        obtain ⟨rfl, rfl⟩ := h
        have hst2 : st2 = _ :=
          (congrArg Prod.snd hne).symm.trans (nextIfEq_false (by rw [hne]))
        rw [hst2]
        exact scanKind_one hcur hc (by decide) (fun _ => by decide) st.line
    rw [if_neg h12] at h
    by_cases h13 : c = '<'
    · subst h13
      rw [if_pos rfl] at h
      split at h
      · rename_i st2 hne
        simp only [Except.ok.injEq, Prod.mk.injEq] at h
        obtain ⟨rfl, rfl⟩ := h
        obtain ⟨hd2, hsnd⟩ := nextIfEq_true (by rw [hne])
        have hst2 : st2 = _ := (congrArg Prod.snd hne).symm.trans hsnd
        rw [hst2]
        exact scanKind_two hcur hc hd2 (by decide) (fun _ => by decide)
      · rename_i st2 hne
        simp only [Except.ok.injEq, Prod.mk.injEq] at h
        obtain ⟨rfl, rfl⟩ := h
        have hst2 : st2 = _ :=
          (congrArg Prod.snd hne).symm.trans (nextIfEq_false (by rw [hne]))
        rw [hst2]
        exact scanKind_one hcur hc (by decide) (fun _ => by decide) st.line
    rw [if_neg h13] at h
    by_cases h14 : c = '>'
    · subst h14
      rw [if_pos rfl] at h
      split at h
      · rename_i st2 hne
        simp only [Except.ok.injEq, Prod.mk.injEq] at h
        obtain ⟨rfl, rfl⟩ := h
        obtain ⟨hd2, hsnd⟩ := nextIfEq_true (by rw [hne])
        have hst2 : st2 = _ := (congrArg Prod.snd hne).symm.trans hsnd
        rw [hst2]
        exact scanKind_two hcur hc hd2 (by decide) (fun _ => by decide)
      · rename_i st2 hne
        simp only [Except.ok.injEq, Prod.mk.injEq] at h
        obtain ⟨rfl, rfl⟩ := h
        have hst2 : st2 = _ :=
          (congrArg Prod.snd hne).symm.trans (nextIfEq_false (by rw [hne]))
        rw [hst2]
        exact scanKind_one hcur hc (by decide) (fun _ => by decide) st.line
    rw [if_neg h14] at h
    by_cases h15 : c = '/'
    · subst h15
      rw [if_pos rfl] at h
      split at h
      · rename_i st2 hne
        simp only [Except.ok.injEq, Prod.mk.injEq] at h
        obtain ⟨rfl, rfl⟩ := h
        obtain ⟨hd2, hsnd⟩ := nextIfEq_true (by rw [hne])
        have hst2 : st2 = _ := (congrArg Prod.snd hne).symm.trans hsnd
        rw [hst2]
        exact scanKind_comment hcur hc hd2
      · rename_i st2 hne
        simp only [Except.ok.injEq, Prod.mk.injEq] at h
        obtain ⟨rfl, rfl⟩ := h
        have hst2 : st2 = _ :=
          (congrArg Prod.snd hne).symm.trans (nextIfEq_false (by rw [hne]))
        rw [hst2]
        exact scanKind_one hcur hc (by decide) (fun _ => by decide) st.line
    rw [if_neg h15] at h
    by_cases h16 : c = '\n'
    · subst h16
      rw [if_pos rfl] at h
      simp only [Except.ok.injEq, Prod.mk.injEq] at h
      obtain ⟨rfl, rfl⟩ := h
      exact scanKind_one hcur hc (by decide) (fun hw => absurd rfl hw) (st.line + 1)
    rw [if_neg h16] at h
    by_cases h17 : c = '"'
    · subst h17
      rw [if_pos rfl] at h
      exact scanKind_string hcur hc h
    rw [if_neg h17] at h
    by_cases h18 : rustWhitespace c = true
    · rw [if_pos h18] at h
      simp only [Except.ok.injEq, Prod.mk.injEq] at h
      obtain ⟨rfl, rfl⟩ := h
      exact scanKind_one hcur hc (by decide) (fun hw => absurd rfl hw) st.line
    rw [if_neg h18] at h
    by_cases h19 : isAsciiDigit c = true
    · rw [if_pos h19] at h
      split at h
      · rename_i hdp
        simp only [Except.ok.injEq, Prod.mk.injEq] at h
        obtain ⟨rfl, rfl⟩ := h
        obtain ⟨hdot, d, hd2, hdd⟩ := decimalPoint_true hdp
        exact scanKind_number_frac hcur hc h19 hdot hd2 hdd
      · rename_i hdp
        simp only [Except.ok.injEq, Prod.mk.injEq] at h
        obtain ⟨rfl, rfl⟩ := h
        exact scanKind_number_nofrac hcur hc h19
    rw [if_neg h19] at h
    by_cases h20 : isXidStart c = true
    · rw [if_pos h20] at h
      obtain ⟨hslice, hconc⟩ := scanKind_ident hcur hstart hc h20
      split at h
      · rename_i ident hsl
        have hident : ident = c :: (st.source.drop (st.pos + 1)).takeWhile isXidCont :=
          Option.some.inj (hsl.symm.trans hslice)
        subst hident
        simp only [Except.ok.injEq, Prod.mk.injEq] at h
        obtain ⟨rfl, rfl⟩ := h
        exact hconc
      · rename_i hsl
        exact Option.noConfusion (hsl.symm.trans hslice)
    rw [if_neg h20] at h
    exact absurd h (by simp)

/-- What one successful `scan_token` call guarantees from a state satisfying
the scanner invariant. -/
theorem scanToken_ok {st : ScanState} {t : Token} {st' : ScanState}
    (hInv : Inv st) (h : scanToken st = .ok (t, st')) :
    Inv st' ∧ st'.source = st.source ∧ st.pos ≤ st'.pos ∧
    st'.pos ≤ st.source.length ∧
    st'.start = st'.current ∧
    t.line = st'.line ∧
    t.lexeme.data = (st.source.take st'.pos).drop st.pos ∧
    (t.kind = .Eof ↔ st.pos = st.source.length) ∧
    (t.kind = .Eof → st'.pos = st.pos ∧ t.lexeme = "") ∧
    (t.kind ≠ .Eof → st.pos < st'.pos) ∧
    (t.kind ≠ .Eof → t.kind ≠ .Whitespace → goodLex t.kind t.lexeme.data = true) := by
  obtain ⟨hP, hcur, k0, hk0le, hk0⟩ := hInv
  unfold scanToken at h
  cases hsk : scanKind { st with start := st.current } with
  | error e => simp only [hsk] at h; simp at h
  | ok kst1 =>
    obtain ⟨kind, st1⟩ := kst1
    simp only [hsk] at h
    have hP0 : ({ st with start := st.current } : ScanState).pos ≤
        ({ st with start := st.current } : ScanState).source.length := hP
    have hcur0 : ({ st with start := st.current } : ScanState).current =
        utf8Len (({ st with start := st.current } : ScanState).source.take
          ({ st with start := st.current } : ScanState).pos) := hcur
    have hconc := scanKind_ok hP0 hcur0 rfl hsk
    obtain ⟨hsrc1, hstart1, hple, hple2, hcur1, hEofIff, hEofEq, hlt1, hgl⟩ := hconc
    have hsrc1' : st1.source = st.source := hsrc1
    have hstart1' : st1.start = st.current := hstart1
    have hple' : st.pos ≤ st1.pos := hple
    have hple2' : st1.pos ≤ st.source.length := hple2
    have hcur1' : st1.current = utf8Len (st.source.take st1.pos) := hcur1
    have hEofIff' : kind = .Eof ↔ st.pos = st.source.length := hEofIff
    have hlt1' : kind ≠ .Eof → st.pos < st1.pos := hlt1
    have hgl' : kind ≠ .Eof → kind ≠ .Whitespace →
        goodLex kind ((st.source.take st1.pos).drop st.pos) = true := hgl
    have hEofEq' : kind = .Eof → st1 = { st with start := st.current } := hEofEq
    have hslice : utf8Slice st1.source st1.start st1.current =
        some ((st.source.take st1.pos).drop st.pos) := by
      rw [hsrc1', hstart1', hcur1', hcur]
      exact utf8Slice_take_drop st.source st.pos st1.pos hple' hple2'
    simp only [hslice] at h
    simp only [Except.ok.injEq, Prod.mk.injEq] at h
    obtain ⟨rfl, rfl⟩ := h
    refine ⟨⟨?_, ?_, st1.pos, le_rfl, ?_⟩, hsrc1', hple', hple2', rfl, rfl, rfl,
      hEofIff', ?_, hlt1', hgl'⟩
    · show st1.pos ≤ st1.source.length
      rw [hsrc1']
      exact hple2'
    · show st1.current = utf8Len (st1.source.take st1.pos)
      rw [hsrc1']
      exact hcur1'
    · show st1.current = utf8Len (st1.source.take st1.pos)
      rw [hsrc1']
      exact hcur1'
    · intro hk
      have hst1 := hEofEq' hk
      have hpos1 : st1.pos = st.pos := by rw [hst1]
      refine ⟨hpos1, ?_⟩
      show String.mk ((st.source.take st1.pos).drop st.pos) = ""
      rw [hpos1]
      have hlen : (st.source.take st.pos).length ≤ st.pos := by
        simp [List.length_take]
      rw [List.drop_eq_nil_of_le hlen]

/-- The scan loop, from a well-formed state, appends a nonempty block of
tokens: every token but the last is a real token (not `Whitespace`, not
`Eof`) whose lexeme has the shape recorded by `goodLex`, and the last is the
`Eof` sentinel with empty lexeme. -/
theorem scanLoop_ok (fuel : Nat) (st : ScanState) (acc out : List Token)
    (hInv : Inv st) (h : scanLoop fuel st acc = .ok out) :
    ∃ new, out = acc ++ new ∧ new ≠ [] ∧
      (∀ t ∈ new.dropLast, t.kind ≠ .Eof ∧ t.kind ≠ .Whitespace ∧
        goodLex t.kind t.lexeme.data = true) ∧
      ∃ te, new.getLast? = some te ∧ te.kind = .Eof ∧ te.lexeme = "" := by
  induction fuel generalizing st acc with
  | zero => simp [scanLoop] at h
  | succ f ih =>
    simp only [scanLoop] at h
    cases hst : scanToken st with
    | error e => simp only [hst] at h; simp at h
    | ok tst =>
      obtain ⟨t, st'⟩ := tst
      simp only [hst] at h
      obtain ⟨hInv', hsrc', hple, hple2, hse, hline, hlex, hEofIff, hEof, hltE, hgl⟩ :=
        scanToken_ok hInv hst
      by_cases hws : t.kind = .Whitespace
      · rw [if_pos hws] at h
        exact ih st' acc hInv' h
      · rw [if_neg hws] at h
        by_cases hEofk : t.kind = .Eof
        · rw [if_pos hEofk] at h
          simp only [Except.ok.injEq] at h
          subst h
          exact ⟨[t], rfl, by simp, by simp, t, by simp, hEofk, (hEof hEofk).2⟩
        · rw [if_neg hEofk] at h
          obtain ⟨new, hout, hne, hdl, te, hlast, hteEof, hteLex⟩ :=
            ih st' (acc ++ [t]) hInv' h
          refine ⟨t :: new, by simpa using hout, by simp, ?_, te, ?_, hteEof, hteLex⟩
          · intro x hx
            rw [List.dropLast_cons_of_ne_nil hne] at hx
            rcases List.mem_cons.mp hx with rfl | hx
            · exact ⟨hEofk, hws, hgl hEofk hws⟩
            · exact hdl x hx
          · cases new with
            | nil => exact absurd rfl hne
            | cons b bs =>
              rw [List.getLast?_cons_cons]
              exact hlast

/-- The initial scanner state satisfies the invariant. -/
theorem initState_inv (s : String) : Inv (initState s) :=
  ⟨Nat.zero_le _, rfl, 0, le_rfl, rfl⟩


/-- Evaluation of `scanKind` on a `.` (the lookahead-rejected decimal
point is rescanned as `Dot`). -/
theorem scanKind_dot_eval {st : ScanState} (hc : st.source[st.pos]? = some '.') :
    scanKind st = .ok (.Dot, { st with
      pos := st.pos + 1
      current := st.current + '.'.utf8Size }) := by
  unfold scanKind
  simp only [nextc_some hc]
  rfl

/-- Evaluation of `scanKind` on a `"`: the string branch runs. -/
theorem scanKind_quote_eval {st : ScanState} (hc : st.source[st.pos]? = some '"') :
    scanKind st = stringTok { st with
      pos := st.pos + 1
      current := st.current + '"'.utf8Size } := by
  unfold scanKind
  simp only [nextc_some hc]
  rfl

/-- Evaluation of `scanKind` on an ASCII digit: the number branch runs. -/
theorem scanKind_digit_eval {st : ScanState} {c : Char}
    (hc : st.source[st.pos]? = some c) (hdg : isAsciiDigit c = true) :
    scanKind st =
      if decimalPoint (nextWhile { st with
          pos := st.pos + 1
          current := st.current + c.utf8Size } isAsciiDigit) then
        .ok (.NumberLiteral,
          nextWhile (nextc (nextWhile { st with
            pos := st.pos + 1
            current := st.current + c.utf8Size } isAsciiDigit)).2 isAsciiDigit)
      else
        .ok (.NumberLiteral, nextWhile { st with
          pos := st.pos + 1
          current := st.current + c.utf8Size } isAsciiDigit) := by
  unfold scanKind
  simp only [nextc_some hc]
  obtain ⟨n1, n2, n3, n4, n5, n6, n7, n8, n9, n10, n11, n12, n13, n14, n15, n16,
    n17, hws⟩ := digit_class hdg
  rw [if_neg n1, if_neg n2, if_neg n3, if_neg n4, if_neg n5, if_neg n6, if_neg n7,
    if_neg n8, if_neg n9, if_neg n10, if_neg n11, if_neg n12, if_neg n13,
    if_neg n14, if_neg n15, if_neg n16, if_neg n17,
    if_neg (by simp [hws]), if_pos hdg]

/-- Evaluation of `scanKind` on an identifier-start character: the identifier
branch runs. -/
theorem scanKind_xid_eval {st : ScanState} {c : Char}
    (hc : st.source[st.pos]? = some c) (hx : isXidStart c = true) :
    scanKind st =
      (match utf8Slice (nextWhile { st with
            pos := st.pos + 1
            current := st.current + c.utf8Size } isXidCont).source
          (nextWhile { st with
            pos := st.pos + 1
            current := st.current + c.utf8Size } isXidCont).start
          (nextWhile { st with
            pos := st.pos + 1
            current := st.current + c.utf8Size } isXidCont).current with
      | some ident => .ok (keywordLookup (String.mk ident),
          nextWhile { st with
            pos := st.pos + 1
            current := st.current + c.utf8Size } isXidCont)
      | none => .error .slicePanic) := by
  unfold scanKind
  simp only [nextc_some hc]
  obtain ⟨n1, n2, n3, n4, n5, n6, n7, n8, n9, n10, n11, n12, n13, n14, n15, n16,
    n17, hws, hdg⟩ := xid_class hx
  rw [if_neg n1, if_neg n2, if_neg n3, if_neg n4, if_neg n5, if_neg n6, if_neg n7,
    if_neg n8, if_neg n9, if_neg n10, if_neg n11, if_neg n12, if_neg n13,
    if_neg n14, if_neg n15, if_neg n16, if_neg n17,
    if_neg (by simp [hws]), if_neg (by simp [hdg]), if_pos hx]

/-- Forward form of `scanToken`: a successful `scanKind` from a well-formed
state yields a successful `scanToken` whose lexeme is the consumed slice. -/
theorem scanToken_of_scanKind {st : ScanState} {kind : TokenType} {st1 : ScanState}
    (hInv : Inv st)
    (hsk : scanKind { st with start := st.current } = .ok (kind, st1)) :
    scanToken st = .ok ((⟨kind,
        String.mk ((st.source.take st1.pos).drop st.pos), st1.line⟩ : Token),
      { st1 with start := st1.current }) := by
  obtain ⟨hP, hcur, k0, hk0le, hk0⟩ := hInv
  have hP0 : ({ st with start := st.current } : ScanState).pos ≤
      ({ st with start := st.current } : ScanState).source.length := hP
  have hcur0 : ({ st with start := st.current } : ScanState).current =
      utf8Len (({ st with start := st.current } : ScanState).source.take
        ({ st with start := st.current } : ScanState).pos) := hcur
  obtain ⟨hsrc1, hstart1, hple, hple2, hcur1, -, -, -, -⟩ := scanKind_ok hP0 hcur0 rfl hsk
  have hsrc1' : st1.source = st.source := hsrc1
  have hstart1' : st1.start = st.current := hstart1
  have hple' : st.pos ≤ st1.pos := hple
  have hple2' : st1.pos ≤ st.source.length := hple2
  have hcur1' : st1.current = utf8Len (st.source.take st1.pos) := hcur1
  have hslice : utf8Slice st1.source st1.start st1.current =
      some ((st.source.take st1.pos).drop st.pos) := by
    rw [hsrc1', hstart1', hcur1', hcur]
    exact utf8Slice_take_drop st.source st.pos st1.pos hple' hple2'
  unfold scanToken
  simp only [hsk, hslice]

/-- Evaluation of `scanToken` at end of input: the `Eof` sentinel with empty
lexeme. -/
theorem scanToken_eof_eval {st : ScanState} (hInv : Inv st)
    (hpos : st.pos = st.source.length) :
    scanToken st = .ok ((⟨.Eof, "", st.line⟩ : Token),
      { st with start := st.current }) := by
  obtain ⟨hP, hcur, k0, hk0le, hk0⟩ := hInv
  have hnone : st.source[st.pos]? = none := by
    rw [hpos]
    simp
  have hsk : scanKind { st with start := st.current } = .ok (.Eof,
      { st with start := st.current }) := by
    unfold scanKind
    simp only [nextc, hnone]
  have h := scanToken_of_scanKind ⟨hP, hcur, k0, hk0le, hk0⟩ hsk
  rw [h]
  have hdropnil : (st.source.take st.pos).drop st.pos = [] :=
    List.drop_eq_nil_of_le (by simp [List.length_take])
  rw [hdropnil]


/-- Index arithmetic for `List.getElem?` across an append. -/
theorem getElem?_append_len (l1 l2 : List Char) (i : Nat) :
    (l1 ++ l2)[l1.length + i]? = l2[i]? := by
  rw [List.getElem?_append_right (by omega)]
  simp

/-- `stringScan` on a quote-free prefix followed by a closing quote finds the
quote after `mid.length + 1` characters. -/
theorem stringScan_concat {mid : List Char} (hq : mid.all (· != '"') = true) :
    ∃ nl, stringScan (mid ++ ['"']) = some (mid.length + 1, nl) := by
  induction mid with
  | nil => exact ⟨0, rfl⟩
  | cons m ms ih =>
    simp only [List.all_cons, Bool.and_eq_true] at hq
    obtain ⟨hm, hms⟩ := hq
    obtain ⟨nl, hnl⟩ := ih hms
    refine ⟨nl + (if m = '\n' then 1 else 0), ?_⟩
    simp only [List.cons_append, stringScan]
    rw [if_neg (by simpa using hm)]
    rw [show ms.append ['"'] = ms ++ ['"'] from rfl, hnl]
    rfl

/-- Forward evaluation of `stringTok` from a successful `stringScan`. -/
theorem stringTok_eval {st : ScanState} {n : Nat} {nl : Int}
    (hss : stringScan (st.source.drop st.pos) = some (n, nl)) :
    stringTok st = .ok (.StringLiteral,
      { st with
        pos := st.pos + n
        current := st.current + utf8Len ((st.source.drop st.pos).take n)
        line := st.line + nl }) := by
  unfold stringTok
  simp only [hss]

/-- Forward evaluation of `scanKind` on an identifier-start character,
with the slice already resolved. -/
theorem scanKind_xid_ok {st : ScanState} {c : Char}
    (hcur : st.current = utf8Len (st.source.take st.pos))
    (hstart : st.start = st.current)
    (hc : st.source[st.pos]? = some c) (hx : isXidStart c = true) :
    scanKind st = .ok
      (keywordLookup (String.mk (c :: ((st.source.drop (st.pos + 1)).takeWhile isXidCont))),
      nextWhile { st with
        pos := st.pos + 1
        current := st.current + c.utf8Size } isXidCont) := by
  obtain ⟨hslice, -⟩ := scanKind_ident hcur hstart hc hx
  rw [scanKind_xid_eval hc hx]
  split
  · rename_i ident heq
    have h2 : some ident =
        some (c :: ((st.source.drop (st.pos + 1)).takeWhile isXidCont)) :=
      heq.symm.trans hslice
    obtain rfl := Option.some.inj h2
    rfl
  · rename_i heq
    exact absurd (heq.symm.trans hslice) (by simp)

/-- A one-token source: if `scanToken` consumes the whole input in one step,
`scanTokens` returns that token followed by the `Eof` sentinel. -/
theorem scanTokens_single {l : List Char} {t : Token} {st1 : ScanState}
    (h1 : scanToken (initState (String.mk l)) = .ok (t, st1))
    (hWS : t.kind ≠ .Whitespace) (hE : t.kind ≠ .Eof)
    (hpos : st1.pos = l.length) :
    scanTokens (String.mk l) = .ok [t, ⟨.Eof, "", st1.line⟩] := by
  obtain ⟨hInv1, hsrc1, hle1, hle2, hse1, hline1, hlex1, hEofIff, hEofCase, hlt, hgl⟩ :=
    scanToken_ok (initState_inv (String.mk l)) h1
  have hsrc1' : st1.source = l := hsrc1
  have hlpos : 0 < st1.pos := hlt hE
  obtain ⟨m, hm⟩ : ∃ m, l.length = m + 1 := ⟨l.length - 1, by omega⟩
  have hEof2 : scanToken st1 = .ok ((⟨.Eof, "", st1.line⟩ : Token),
      { st1 with start := st1.current }) :=
    scanToken_eof_eval hInv1 (by rw [hpos, hsrc1'])
  have hlen2 : (String.mk l).length = m + 1 := hm
  unfold scanTokens
  rw [hlen2]
  simp only [scanLoop, h1]
  rw [if_neg hWS, if_neg hE]
  simp only [List.nil_append]
  simp only [scanLoop, hEof2]
  simp

/-- Rescanning a well-formed string-literal lexeme yields one `StringLiteral`
token with the same lexeme, then `Eof`. -/
theorem rescan_string {mid : List Char} (hq : mid.all (· != '"') = true) :
    ∃ line2 line3 : Int,
      scanTokens (String.mk ('"' :: (mid ++ ['"']))) =
        .ok [⟨.StringLiteral, String.mk ('"' :: (mid ++ ['"'])), line2⟩,
          ⟨.Eof, "", line3⟩] := by
  obtain ⟨nl, hss⟩ := stringScan_concat hq
  have hc' : (initState (String.mk ('"' :: (mid ++ ['"'])))).source[(initState (String.mk ('"' :: (mid ++ ['"'])))).pos]? = some '"' := by
    show ('"' :: (mid ++ ['"']))[0]? = some '"'
    simp
  have hsk0 := scanKind_quote_eval hc'
  have hss' : stringScan (({ initState (String.mk ('"' :: (mid ++ ['"']))) with
      pos := (initState (String.mk ('"' :: (mid ++ ['"'])))).pos + 1
      current := (initState (String.mk ('"' :: (mid ++ ['"'])))).current + '"'.utf8Size } : ScanState).source.drop
      ({ initState (String.mk ('"' :: (mid ++ ['"']))) with
      pos := (initState (String.mk ('"' :: (mid ++ ['"'])))).pos + 1
      current := (initState (String.mk ('"' :: (mid ++ ['"'])))).current + '"'.utf8Size } : ScanState).pos) = some (mid.length + 1, nl) := by
    show stringScan (mid ++ ['"']) = some (mid.length + 1, nl)
    exact hss
  have hst := stringTok_eval hss'
  have hsk := hsk0.trans hst
  have hBpos : ({ ({ initState (String.mk ('"' :: (mid ++ ['"']))) with
      pos := (initState (String.mk ('"' :: (mid ++ ['"'])))).pos + 1
      current := (initState (String.mk ('"' :: (mid ++ ['"'])))).current + '"'.utf8Size } : ScanState) with
      pos := ({ initState (String.mk ('"' :: (mid ++ ['"']))) with
      pos := (initState (String.mk ('"' :: (mid ++ ['"'])))).pos + 1
      current := (initState (String.mk ('"' :: (mid ++ ['"'])))).current + '"'.utf8Size } : ScanState).pos + (mid.length + 1)
      current := ({ initState (String.mk ('"' :: (mid ++ ['"']))) with
      pos := (initState (String.mk ('"' :: (mid ++ ['"'])))).pos + 1
      current := (initState (String.mk ('"' :: (mid ++ ['"'])))).current + '"'.utf8Size } : ScanState).current +
        utf8Len ((({ initState (String.mk ('"' :: (mid ++ ['"']))) with
      pos := (initState (String.mk ('"' :: (mid ++ ['"'])))).pos + 1
      current := (initState (String.mk ('"' :: (mid ++ ['"'])))).current + '"'.utf8Size } : ScanState).source.drop
          ({ initState (String.mk ('"' :: (mid ++ ['"']))) with
      pos := (initState (String.mk ('"' :: (mid ++ ['"'])))).pos + 1
      current := (initState (String.mk ('"' :: (mid ++ ['"'])))).current + '"'.utf8Size } : ScanState).pos).take (mid.length + 1))
      line := ({ initState (String.mk ('"' :: (mid ++ ['"']))) with
      pos := (initState (String.mk ('"' :: (mid ++ ['"'])))).pos + 1
      current := (initState (String.mk ('"' :: (mid ++ ['"'])))).current + '"'.utf8Size } : ScanState).line + nl } : ScanState).pos =
      ('"' :: (mid ++ ['"'])).length := by
    show 0 + 1 + (mid.length + 1) = ('"' :: (mid ++ ['"'])).length
    simp only [List.length_cons, List.length_append, List.length_nil]
    omega
  have h1 := @scanToken_of_scanKind (initState (String.mk ('"' :: (mid ++ ['"'])))) _ _
    (initState_inv (String.mk ('"' :: (mid ++ ['"'])))) hsk
  have hlex : ((initState (String.mk ('"' :: (mid ++ ['"'])))).source.take
      ({ ({ initState (String.mk ('"' :: (mid ++ ['"']))) with
      pos := (initState (String.mk ('"' :: (mid ++ ['"'])))).pos + 1
      current := (initState (String.mk ('"' :: (mid ++ ['"'])))).current + '"'.utf8Size } : ScanState) with
        pos := ({ initState (String.mk ('"' :: (mid ++ ['"']))) with
      pos := (initState (String.mk ('"' :: (mid ++ ['"'])))).pos + 1
      current := (initState (String.mk ('"' :: (mid ++ ['"'])))).current + '"'.utf8Size } : ScanState).pos + (mid.length + 1)
        current := ({ initState (String.mk ('"' :: (mid ++ ['"']))) with
      pos := (initState (String.mk ('"' :: (mid ++ ['"'])))).pos + 1
      current := (initState (String.mk ('"' :: (mid ++ ['"'])))).current + '"'.utf8Size } : ScanState).current +
          utf8Len ((({ initState (String.mk ('"' :: (mid ++ ['"']))) with
      pos := (initState (String.mk ('"' :: (mid ++ ['"'])))).pos + 1
      current := (initState (String.mk ('"' :: (mid ++ ['"'])))).current + '"'.utf8Size } : ScanState).source.drop
            ({ initState (String.mk ('"' :: (mid ++ ['"']))) with
      pos := (initState (String.mk ('"' :: (mid ++ ['"'])))).pos + 1
      current := (initState (String.mk ('"' :: (mid ++ ['"'])))).current + '"'.utf8Size } : ScanState).pos).take (mid.length + 1))
        line := ({ initState (String.mk ('"' :: (mid ++ ['"']))) with
      pos := (initState (String.mk ('"' :: (mid ++ ['"'])))).pos + 1
      current := (initState (String.mk ('"' :: (mid ++ ['"'])))).current + '"'.utf8Size } : ScanState).line + nl } : ScanState).pos).drop
      (initState (String.mk ('"' :: (mid ++ ['"'])))).pos = '"' :: (mid ++ ['"']) := by
    rw [hBpos]
    show ('"' :: (mid ++ ['"'])).take ('"' :: (mid ++ ['"'])).length = '"' :: (mid ++ ['"'])
    exact List.take_length _
  rw [hlex] at h1
  have hWS2 : TokenType.StringLiteral ≠ TokenType.Whitespace := by decide
  have hE2 : TokenType.StringLiteral ≠ TokenType.Eof := by decide
  have hfinal := scanTokens_single h1 hWS2 hE2 hBpos
  exact ⟨_, _, hfinal⟩


/-- Rescanning a well-formed identifier/keyword lexeme yields one token of
the keyword-table kind with the same lexeme, then `Eof`. -/
theorem rescan_ident {c : Char} {cs : List Char}
    (hx : isXidStart c = true) (hcont : cs.all isXidCont = true) :
    ∃ line2 line3 : Int,
      scanTokens (String.mk (c :: cs)) =
        .ok [⟨keywordLookup (String.mk (c :: cs)), String.mk (c :: cs), line2⟩,
          ⟨.Eof, "", line3⟩] := by
  have hcs : cs.takeWhile isXidCont = cs :=
    List.takeWhile_eq_self_iff.mpr (fun a ha => List.all_eq_true.mp hcont a ha)
  have hc' : (initState (String.mk (c :: cs))).source[(initState (String.mk (c :: cs))).pos]? = some c := by
    show (c :: cs)[0]? = some c
    simp
  have hcur' : (initState (String.mk (c :: cs))).current =
      utf8Len ((initState (String.mk (c :: cs))).source.take (initState (String.mk (c :: cs))).pos) := rfl
  have hstart' : (initState (String.mk (c :: cs))).start = (initState (String.mk (c :: cs))).current := rfl
  have hsk0 := scanKind_xid_ok hcur' hstart' hc' hx
  have hRX : ((initState (String.mk (c :: cs))).source.drop ((initState (String.mk (c :: cs))).pos + 1)).takeWhile isXidCont = cs := by
    show cs.takeWhile isXidCont = cs
    exact hcs
  rw [hRX] at hsk0
  have hBpos : (nextWhile { initState (String.mk (c :: cs)) with
      pos := (initState (String.mk (c :: cs))).pos + 1
      current := (initState (String.mk (c :: cs))).current + c.utf8Size } isXidCont).pos = (c :: cs).length := by
    show 0 + 1 + (cs.takeWhile isXidCont).length = (c :: cs).length
    rw [hcs]
    simp only [List.length_cons]
    omega
  have h1 := @scanToken_of_scanKind (initState (String.mk (c :: cs))) _ _
    (initState_inv (String.mk (c :: cs))) hsk0
  have hlex : ((initState (String.mk (c :: cs))).source.take
      (nextWhile { initState (String.mk (c :: cs)) with
      pos := (initState (String.mk (c :: cs))).pos + 1
      current := (initState (String.mk (c :: cs))).current + c.utf8Size } isXidCont).pos).drop (initState (String.mk (c :: cs))).pos = c :: cs := by
    rw [hBpos]
    show (c :: cs).take (c :: cs).length = c :: cs
    exact List.take_length _
  rw [hlex] at h1
  have hmem := keywordLookup_cases (String.mk (c :: cs))
  have hWS2 : keywordLookup (String.mk (c :: cs)) ≠ TokenType.Whitespace := by
    intro hk
    rw [hk] at hmem
    exact absurd hmem (by decide)
  have hE2 : keywordLookup (String.mk (c :: cs)) ≠ TokenType.Eof := by
    intro hk
    rw [hk] at hmem
    exact absurd hmem (by decide)
  have hfinal := scanTokens_single h1 hWS2 hE2 hBpos
  exact ⟨_, _, hfinal⟩

/-- Rescanning an all-digit lexeme yields one `NumberLiteral` token with the
same lexeme, then `Eof`. -/
theorem rescan_number_int {c : Char} {r1 : List Char}
    (hcd : isAsciiDigit c = true) (hr : r1.all isAsciiDigit = true) :
    ∃ line2 line3 : Int,
      scanTokens (String.mk (c :: r1)) =
        .ok [⟨.NumberLiteral, String.mk (c :: r1), line2⟩, ⟨.Eof, "", line3⟩] := by
  have hrun : r1.takeWhile isAsciiDigit = r1 :=
    List.takeWhile_eq_self_iff.mpr (fun a ha => List.all_eq_true.mp hr a ha)
  have hc' : (initState (String.mk (c :: r1))).source[(initState (String.mk (c :: r1))).pos]? = some c := by
    show (c :: r1)[0]? = some c
    simp
  have hsk0 := scanKind_digit_eval hc' hcd
  have hdp : decimalPoint (nextWhile { initState (String.mk (c :: r1)) with
      pos := (initState (String.mk (c :: r1))).pos + 1
      current := (initState (String.mk (c :: r1))).current + c.utf8Size } isAsciiDigit) = false := by
    show (((c :: r1)[0 + 1 + (r1.takeWhile isAsciiDigit).length]? == some '.') &&
        (((c :: r1)[0 + 1 + (r1.takeWhile isAsciiDigit).length + 1]?).filter isAsciiDigit).isSome) = false
    rw [hrun]
    have hnone : (c :: r1)[0 + 1 + r1.length]? = none :=
      List.getElem?_eq_none (by simp only [List.length_cons]; omega)
    have hnone2 : (c :: r1)[0 + 1 + r1.length + 1]? = none :=
      List.getElem?_eq_none (by simp only [List.length_cons]; omega)
    rw [hnone, hnone2]
    rfl
  rw [if_neg (by rw [hdp]; simp)] at hsk0
  have hBpos : (nextWhile { initState (String.mk (c :: r1)) with
      pos := (initState (String.mk (c :: r1))).pos + 1
      current := (initState (String.mk (c :: r1))).current + c.utf8Size } isAsciiDigit).pos = (c :: r1).length := by
    show 0 + 1 + (r1.takeWhile isAsciiDigit).length = (c :: r1).length
    rw [hrun]
    simp only [List.length_cons]
    omega
  have h1 := @scanToken_of_scanKind (initState (String.mk (c :: r1))) _ _
    (initState_inv (String.mk (c :: r1))) hsk0
  have hlex : ((initState (String.mk (c :: r1))).source.take
      (nextWhile { initState (String.mk (c :: r1)) with
      pos := (initState (String.mk (c :: r1))).pos + 1
      current := (initState (String.mk (c :: r1))).current + c.utf8Size } isAsciiDigit).pos).drop (initState (String.mk (c :: r1))).pos = c :: r1 := by
    rw [hBpos]
    show (c :: r1).take (c :: r1).length = c :: r1
    exact List.take_length _
  rw [hlex] at h1
  have hWS2 : TokenType.NumberLiteral ≠ TokenType.Whitespace := by decide
  have hE2 : TokenType.NumberLiteral ≠ TokenType.Eof := by decide
  have hfinal := scanTokens_single h1 hWS2 hE2 hBpos
  exact ⟨_, _, hfinal⟩

/-- Rescanning a digits-dot-digits lexeme yields one `NumberLiteral` token
with the same lexeme, then `Eof`. -/
theorem rescan_number_frac {c e : Char} {r1 es : List Char}
    (hcd : isAsciiDigit c = true) (hr : r1.all isAsciiDigit = true)
    (he : isAsciiDigit e = true) (hes : es.all isAsciiDigit = true) :
    ∃ line2 line3 : Int,
      scanTokens (String.mk (c :: (r1 ++ '.' :: e :: es))) =
        .ok [⟨.NumberLiteral, String.mk (c :: (r1 ++ '.' :: e :: es)), line2⟩, ⟨.Eof, "", line3⟩] := by
  have hrun : (r1 ++ '.' :: e :: es).takeWhile isAsciiDigit = r1 :=
    takeWhile_all_head _ _ _ (fun a ha => List.all_eq_true.mp hr a ha)
      (by intro a ha; simp at ha; subst ha; decide)
  have hc' : (initState (String.mk (c :: (r1 ++ '.' :: e :: es)))).source[(initState (String.mk (c :: (r1 ++ '.' :: e :: es)))).pos]? = some c := by
    show (c :: (r1 ++ '.' :: e :: es))[0]? = some c
    simp
  have hsk0 := scanKind_digit_eval hc' hcd
  have hidx1 : (c :: (r1 ++ '.' :: e :: es))[0 + 1 + r1.length]? = some '.' := by
    rw [show c :: (r1 ++ '.' :: e :: es) = (c :: r1) ++ ('.' :: e :: es) from by simp]
    rw [show 0 + 1 + r1.length = (c :: r1).length + 0 from by
      simp only [List.length_cons]; omega]
    rw [getElem?_append_len]
    simp
  have hidx2 : (c :: (r1 ++ '.' :: e :: es))[0 + 1 + r1.length + 1]? = some e := by
    rw [show c :: (r1 ++ '.' :: e :: es) = (c :: r1) ++ ('.' :: e :: es) from by simp]
    rw [show 0 + 1 + r1.length + 1 = (c :: r1).length + 1 from by
      simp only [List.length_cons]; omega]
    rw [getElem?_append_len]
    simp
  have hdp : decimalPoint (nextWhile { initState (String.mk (c :: (r1 ++ '.' :: e :: es))) with
      pos := (initState (String.mk (c :: (r1 ++ '.' :: e :: es)))).pos + 1
      current := (initState (String.mk (c :: (r1 ++ '.' :: e :: es)))).current + c.utf8Size } isAsciiDigit) = true := by
    show (((c :: (r1 ++ '.' :: e :: es))[0 + 1 + ((r1 ++ '.' :: e :: es).takeWhile isAsciiDigit).length]? == some '.') &&
        (((c :: (r1 ++ '.' :: e :: es))[0 + 1 + ((r1 ++ '.' :: e :: es).takeWhile isAsciiDigit).length + 1]?).filter
          isAsciiDigit).isSome) = true
    rw [hrun, hidx1, hidx2]
    simp [Option.filter, he]
  rw [if_pos hdp] at hsk0
  have hdot2 : (nextWhile { initState (String.mk (c :: (r1 ++ '.' :: e :: es))) with
      pos := (initState (String.mk (c :: (r1 ++ '.' :: e :: es)))).pos + 1
      current := (initState (String.mk (c :: (r1 ++ '.' :: e :: es)))).current + c.utf8Size } isAsciiDigit).source[(nextWhile { initState (String.mk (c :: (r1 ++ '.' :: e :: es))) with
      pos := (initState (String.mk (c :: (r1 ++ '.' :: e :: es)))).pos + 1
      current := (initState (String.mk (c :: (r1 ++ '.' :: e :: es)))).current + c.utf8Size } isAsciiDigit).pos]? =
      some '.' := by
    show (c :: (r1 ++ '.' :: e :: es))[0 + 1 + ((r1 ++ '.' :: e :: es).takeWhile isAsciiDigit).length]? = some '.'
    rw [hrun]
    exact hidx1
  have hnc := nextc_some hdot2
  simp only [hnc] at hsk0
  have hees : (e :: es).takeWhile isAsciiDigit = e :: es :=
    List.takeWhile_eq_self_iff.mpr (by
      intro a ha
      rcases List.mem_cons.mp ha with rfl | h2
      · exact he
      · exact List.all_eq_true.mp hes a h2)
  have hB4pos : (nextWhile { nextWhile { initState (String.mk (c :: (r1 ++ '.' :: e :: es))) with
      pos := (initState (String.mk (c :: (r1 ++ '.' :: e :: es)))).pos + 1
      current := (initState (String.mk (c :: (r1 ++ '.' :: e :: es)))).current + c.utf8Size } isAsciiDigit with
      pos := (nextWhile { initState (String.mk (c :: (r1 ++ '.' :: e :: es))) with
      pos := (initState (String.mk (c :: (r1 ++ '.' :: e :: es)))).pos + 1
      current := (initState (String.mk (c :: (r1 ++ '.' :: e :: es)))).current + c.utf8Size } isAsciiDigit).pos + 1
      current := (nextWhile { initState (String.mk (c :: (r1 ++ '.' :: e :: es))) with
      pos := (initState (String.mk (c :: (r1 ++ '.' :: e :: es)))).pos + 1
      current := (initState (String.mk (c :: (r1 ++ '.' :: e :: es)))).current + c.utf8Size } isAsciiDigit).current + '.'.utf8Size } isAsciiDigit).pos = (c :: (r1 ++ '.' :: e :: es)).length := by
    show 0 + 1 + ((r1 ++ '.' :: e :: es).takeWhile isAsciiDigit).length + 1 +
        (((c :: (r1 ++ '.' :: e :: es)).drop
          (0 + 1 + ((r1 ++ '.' :: e :: es).takeWhile isAsciiDigit).length + 1)).takeWhile
            isAsciiDigit).length = (c :: (r1 ++ '.' :: e :: es)).length
    rw [hrun]
    rw [show (c :: (r1 ++ '.' :: e :: es) : List Char) = (c :: r1 ++ ['.']) ++ (e :: es) from by simp]
    rw [List.drop_left' (by simp only [List.length_append, List.length_cons, List.length_nil]; omega)]
    rw [hees]
    simp only [List.length_append, List.length_cons, List.length_nil]
    omega
  have h1 := @scanToken_of_scanKind (initState (String.mk (c :: (r1 ++ '.' :: e :: es)))) _ _
    (initState_inv (String.mk (c :: (r1 ++ '.' :: e :: es)))) hsk0
  have hlex : ((initState (String.mk (c :: (r1 ++ '.' :: e :: es)))).source.take
      (nextWhile { nextWhile { initState (String.mk (c :: (r1 ++ '.' :: e :: es))) with
      pos := (initState (String.mk (c :: (r1 ++ '.' :: e :: es)))).pos + 1
      current := (initState (String.mk (c :: (r1 ++ '.' :: e :: es)))).current + c.utf8Size } isAsciiDigit with
      pos := (nextWhile { initState (String.mk (c :: (r1 ++ '.' :: e :: es))) with
      pos := (initState (String.mk (c :: (r1 ++ '.' :: e :: es)))).pos + 1
      current := (initState (String.mk (c :: (r1 ++ '.' :: e :: es)))).current + c.utf8Size } isAsciiDigit).pos + 1
      current := (nextWhile { initState (String.mk (c :: (r1 ++ '.' :: e :: es))) with
      pos := (initState (String.mk (c :: (r1 ++ '.' :: e :: es)))).pos + 1
      current := (initState (String.mk (c :: (r1 ++ '.' :: e :: es)))).current + c.utf8Size } isAsciiDigit).current + '.'.utf8Size } isAsciiDigit).pos).drop (initState (String.mk (c :: (r1 ++ '.' :: e :: es)))).pos = c :: (r1 ++ '.' :: e :: es) := by
    rw [hB4pos]
    show (c :: (r1 ++ '.' :: e :: es)).take (c :: (r1 ++ '.' :: e :: es)).length = c :: (r1 ++ '.' :: e :: es)
    exact List.take_length _
  rw [hlex] at h1
  have hWS2 : TokenType.NumberLiteral ≠ TokenType.Whitespace := by decide
  have hE2 : TokenType.NumberLiteral ≠ TokenType.Eof := by decide
  have hfinal := scanTokens_single h1 hWS2 hE2 hB4pos
  exact ⟨_, _, hfinal⟩


/-- Every lexeme shape certified by `goodLex` rescans to a single token of
the same kind with the same lexeme, followed by the `Eof` sentinel. -/
theorem rescan_goodLex {k : TokenType} {l : List Char}
    (hk : goodLex k l = true) :
    ∃ line2 line3 : Int,
      scanTokens (String.mk l) = .ok [⟨k, String.mk l, line2⟩, ⟨.Eof, "", line3⟩] := by
  cases k with
  | LeftParen =>
    simp only [goodLex] at hk
    obtain rfl := eq_of_beq hk
    exact ⟨1, 1, by decide⟩
  | RightParen =>
    simp only [goodLex] at hk
    obtain rfl := eq_of_beq hk
    exact ⟨1, 1, by decide⟩
  | LeftBrace =>
    simp only [goodLex] at hk
    obtain rfl := eq_of_beq hk
    exact ⟨1, 1, by decide⟩
  | RightBrace =>
    simp only [goodLex] at hk
    obtain rfl := eq_of_beq hk
    exact ⟨1, 1, by decide⟩
  | Comma =>
    simp only [goodLex] at hk
    obtain rfl := eq_of_beq hk
    exact ⟨1, 1, by decide⟩
  | Dot =>
    simp only [goodLex] at hk
    obtain rfl := eq_of_beq hk
    exact ⟨1, 1, by decide⟩
  | Minus =>
    simp only [goodLex] at hk
    obtain rfl := eq_of_beq hk
    exact ⟨1, 1, by decide⟩
  | Plus =>
    simp only [goodLex] at hk
    obtain rfl := eq_of_beq hk
    exact ⟨1, 1, by decide⟩
  | Semicolon =>
    simp only [goodLex] at hk
    obtain rfl := eq_of_beq hk
    exact ⟨1, 1, by decide⟩
  | Slash =>
    simp only [goodLex] at hk
    obtain rfl := eq_of_beq hk
    exact ⟨1, 1, by decide⟩
  | Star =>
    simp only [goodLex] at hk
    obtain rfl := eq_of_beq hk
    exact ⟨1, 1, by decide⟩
  | Bang =>
    simp only [goodLex] at hk
    obtain rfl := eq_of_beq hk
    exact ⟨1, 1, by decide⟩
  | Equal =>
    simp only [goodLex] at hk
    obtain rfl := eq_of_beq hk
    exact ⟨1, 1, by decide⟩
  | Greater =>
    simp only [goodLex] at hk
    obtain rfl := eq_of_beq hk
    exact ⟨1, 1, by decide⟩
  | Less =>
    simp only [goodLex] at hk
    obtain rfl := eq_of_beq hk
    exact ⟨1, 1, by decide⟩
  | BangEqual =>
    simp only [goodLex] at hk
    obtain rfl := eq_of_beq hk
    exact ⟨1, 1, by decide⟩
  | EqualEqual =>
    simp only [goodLex] at hk
    obtain rfl := eq_of_beq hk
    exact ⟨1, 1, by decide⟩
  | GreaterEqual =>
    simp only [goodLex] at hk
    obtain rfl := eq_of_beq hk
    exact ⟨1, 1, by decide⟩
  | LessEqual =>
    simp only [goodLex] at hk
    obtain rfl := eq_of_beq hk
    exact ⟨1, 1, by decide⟩
  | And =>
    simp only [goodLex] at hk
    obtain rfl := eq_of_beq hk
    exact ⟨1, 1, by decide⟩
  | Class =>
    simp only [goodLex] at hk
    obtain rfl := eq_of_beq hk
    exact ⟨1, 1, by decide⟩
  | Else =>
    simp only [goodLex] at hk
    obtain rfl := eq_of_beq hk
    exact ⟨1, 1, by decide⟩
  | False =>
    simp only [goodLex] at hk
    obtain rfl := eq_of_beq hk
    exact ⟨1, 1, by decide⟩
  | Fun =>
    simp only [goodLex] at hk
    obtain rfl := eq_of_beq hk
    exact ⟨1, 1, by decide⟩
  | For =>
    simp only [goodLex] at hk
    obtain rfl := eq_of_beq hk
    exact ⟨1, 1, by decide⟩
  | If =>
    simp only [goodLex] at hk
    obtain rfl := eq_of_beq hk
    exact ⟨1, 1, by decide⟩
  | Nil =>
    simp only [goodLex] at hk
    obtain rfl := eq_of_beq hk
    exact ⟨1, 1, by decide⟩
  | Or =>
    simp only [goodLex] at hk
    obtain rfl := eq_of_beq hk
    exact ⟨1, 1, by decide⟩
  | Print =>
    simp only [goodLex] at hk
    obtain rfl := eq_of_beq hk
    exact ⟨1, 1, by decide⟩
  | Return =>
    simp only [goodLex] at hk
    obtain rfl := eq_of_beq hk
    exact ⟨1, 1, by decide⟩
  | Super =>
    simp only [goodLex] at hk
    obtain rfl := eq_of_beq hk
    exact ⟨1, 1, by decide⟩
  | This =>
    simp only [goodLex] at hk
    obtain rfl := eq_of_beq hk
    exact ⟨1, 1, by decide⟩
  | True =>
    simp only [goodLex] at hk
    obtain rfl := eq_of_beq hk
    exact ⟨1, 1, by decide⟩
  | Var =>
    simp only [goodLex] at hk
    obtain rfl := eq_of_beq hk
    exact ⟨1, 1, by decide⟩
  | While =>
    simp only [goodLex] at hk
    obtain rfl := eq_of_beq hk
    exact ⟨1, 1, by decide⟩
  | Whitespace => exact absurd hk (by simp [goodLex])
  | Eof => exact absurd hk (by simp [goodLex])
  | NotEqual => exact absurd hk (by simp [goodLex])
  | Not => exact absurd hk (by simp [goodLex])
  | Times => exact absurd hk (by simp [goodLex])
  | Divide => exact absurd hk (by simp [goodLex])
  | NumLiteral => exact absurd hk (by simp [goodLex])
  | StrLiteral => exact absurd hk (by simp [goodLex])
  | StringLiteral =>
    simp only [goodLex] at hk
    split at hk
    · rename_i rest
      simp only [Bool.and_eq_true] at hk
      obtain ⟨⟨hne, hmid⟩, hlast⟩ := hk
      have hne' : rest ≠ [] := by
        intro h
        subst h
        simp at hne
      have hql : rest.getLast? = some '"' := eq_of_beq hlast
      have hgl2 := List.getLast?_eq_getLast_of_ne_nil hne'
      have hglval : rest.getLast hne' = '"' := by
        rw [hgl2] at hql
        exact Option.some.inj hql
      have hrest := List.dropLast_append_getLast hne'
      rw [hglval] at hrest
      rw [← hrest]
      exact rescan_string hmid
    · exact absurd hk (by decide)
  | Identifier =>
    simp only [goodLex, Bool.and_eq_true] at hk
    obtain ⟨hshape, hlook⟩ := hk
    split at hshape
    · rename_i c cs
      simp only [Bool.and_eq_true] at hshape
      obtain ⟨hx, hcont⟩ := hshape
      obtain ⟨l2, l3, hres⟩ := rescan_ident hx hcont
      have hlook' : keywordLookup (String.mk (c :: cs)) = .Identifier := eq_of_beq hlook
      rw [hlook'] at hres
      exact ⟨l2, l3, hres⟩
    · exact absurd hshape (by decide)
  | NumberLiteral =>
    simp only [goodLex, Bool.and_eq_true, Bool.or_eq_true] at hk
    obtain ⟨hne, hrest⟩ := hk
    have hds : l.takeWhile isAsciiDigit = l.take (l.takeWhile isAsciiDigit).length :=
      takeWhile_eq_take isAsciiDigit l
    have htad := List.take_append_drop (l.takeWhile isAsciiDigit).length l
    have hne' : l.takeWhile isAsciiDigit ≠ [] := by
      intro h
      rw [h] at hne
      simp at hne
    obtain ⟨c, r1, hcr⟩ : ∃ c r1, l.takeWhile isAsciiDigit = c :: r1 := by
      cases httt : l.takeWhile isAsciiDigit with
      | nil => exact absurd httt hne'
      | cons a as => exact ⟨a, as, rfl⟩
    have hdig : ∀ a ∈ l.takeWhile isAsciiDigit, isAsciiDigit a = true :=
      fun a ha => List.mem_takeWhile_imp ha
    have hcd : isAsciiDigit c = true := hdig c (by rw [hcr]; exact List.mem_cons_self c r1)
    have hr1 : r1.all isAsciiDigit = true :=
      List.all_eq_true.mpr (fun a ha => hdig a (by rw [hcr]; exact List.mem_cons_of_mem c ha))
    rw [← hds, hcr] at htad
    rcases hrest with hnil | ⟨⟨hdot, hne2⟩, hall2⟩
    · have hnil' : l.drop (l.takeWhile isAsciiDigit).length = [] := by
        simpa using hnil
      rw [hcr] at hnil'
      rw [hnil', List.append_nil] at htad
      rw [← htad]
      exact rescan_number_int hcd hr1
    · cases hrr : l.drop (l.takeWhile isAsciiDigit).length with
      | nil =>
        rw [hrr] at hdot
        simp at hdot
      | cons r0 rest2 =>
        have hr0 : r0 = '.' := by
          rw [hrr] at hdot
          simpa using hdot
        cases hrr2 : rest2 with
        | nil =>
          rw [hrr, hrr2] at hne2
          simp at hne2
        | cons e es =>
          have heall : (e :: es).all isAsciiDigit = true := by
            rw [hrr, hrr2] at hall2
            simpa using hall2
          simp only [List.all_cons, Bool.and_eq_true] at heall
          obtain ⟨he, hes⟩ := heall
          rw [hcr] at hrr
          rw [hrr, hrr2, hr0] at htad
          have htad2 : c :: (r1 ++ '.' :: e :: es) = l := by
            rw [← htad]
            simp
          rw [← htad2]
          exact rescan_number_frac hcd hr1 he hes


/-- C6: on every input on which `scan_tokens` succeeds, the token list
contains no `Whitespace` tokens and ends with exactly one `Eof` token whose
lexeme is empty; `Eof` appears nowhere else in the list. -/
theorem C6_token_list_shape (s : String) (ts : List Token)
    (hs : scanTokens s = .ok ts) :
    (∀ t ∈ ts, t.kind ≠ .Whitespace) ∧
    (∃ te, ts.getLast? = some te ∧ te.kind = .Eof ∧ te.lexeme = "") ∧
    (∀ t ∈ ts.dropLast, t.kind ≠ .Eof) := by
  have hs' : scanLoop (s.length + 1) (initState s) [] = .ok ts := hs
  obtain ⟨new, hout, hne, hdl, te, hlast, hteE, hteLex⟩ :=
    scanLoop_ok (s.length + 1) (initState s) [] ts (initState_inv s) hs'
  simp only [List.nil_append] at hout
  subst hout
  refine ⟨?_, ⟨te, hlast, hteE, hteLex⟩, fun t ht => (hdl t ht).1⟩
  intro t ht
  have hsplit := List.dropLast_append_getLast hne
  have hteval : List.getLast ts hne = te := by
    have h2 := List.getLast?_eq_getLast_of_ne_nil hne
    rw [hlast] at h2
    exact (Option.some.inj h2).symm
  rw [← hsplit] at ht
  rcases List.mem_append.mp ht with hmem | hmem
  · exact (hdl t hmem).2.1
  · have ht2 : t = te := by
      rw [← hteval]
      simpa using hmem
    rw [ht2, hteE]
    decide

/-- Witness for `C6_token_list_shape` on the input `"1"`. -/
theorem C6_token_list_shape_witness :
    (∀ t ∈ [(⟨TokenType.NumberLiteral, "1", 1⟩ : Token), ⟨.Eof, "", 1⟩],
      t.kind ≠ TokenType.Whitespace) ∧
    (∃ te, ([(⟨TokenType.NumberLiteral, "1", 1⟩ : Token), ⟨.Eof, "", 1⟩]).getLast? = some te ∧
      te.kind = TokenType.Eof ∧ te.lexeme = "") ∧
    (∀ t ∈ ([(⟨TokenType.NumberLiteral, "1", 1⟩ : Token), ⟨.Eof, "", 1⟩]).dropLast,
      t.kind ≠ TokenType.Eof) :=
  C6_token_list_shape "1" [⟨.NumberLiteral, "1", 1⟩, ⟨.Eof, "", 1⟩] (by decide)

/-- C7: round-trip: every token of a successful scan other than the trailing
`Eof` sentinel, rescanned on its lexeme alone, yields exactly one token of
the same kind with the same lexeme, followed by the `Eof` sentinel. -/
theorem C7_roundtrip (s : String) (ts : List Token) (hs : scanTokens s = .ok ts) :
    ∀ t ∈ ts.dropLast,
      ∃ line2 line3 : Int,
        scanTokens t.lexeme = .ok [⟨t.kind, t.lexeme, line2⟩, ⟨.Eof, "", line3⟩] := by
  intro t ht
  have hs' : scanLoop (s.length + 1) (initState s) [] = .ok ts := hs
  obtain ⟨new, hout, hne, hdl, te, hlast, hteE, hteLex⟩ :=
    scanLoop_ok (s.length + 1) (initState s) [] ts (initState_inv s) hs'
  simp only [List.nil_append] at hout
  subst hout
  obtain ⟨hE, hWS, hgl⟩ := hdl t ht
  obtain ⟨l2, l3, hres⟩ := rescan_goodLex hgl
  exact ⟨l2, l3, hres⟩

/-- Witness for `C7_roundtrip`: the `var` keyword token of `var x` rescans to
itself. -/
theorem C7_roundtrip_witness :
    ∃ line2 line3 : Int,
      scanTokens "var" = .ok [⟨TokenType.Var, "var", line2⟩, ⟨.Eof, "", line3⟩] :=
  C7_roundtrip "var x" [⟨.Var, "var", 1⟩, ⟨.Identifier, "x", 1⟩, ⟨.Eof, "", 1⟩]
    (by decide) ⟨.Var, "var", 1⟩ (by decide)


/-- C3 counterexample: scanning starts on line 1 and the input's string
literal opens on line 1, yet the produced `StringLiteral` token records
line 2, the line of its closing quote. -/
theorem C3_counterexample :
    (initState "\"a\nb\"").line = 1 ∧
    scanTokens "\"a\nb\"" =
      .ok [⟨.StringLiteral, "\"a\nb\"", 2⟩, ⟨.Eof, "", 2⟩] :=
  ⟨rfl, by decide⟩

/-- C3 (amended): every token produced by a `scanToken` step carries the
value of the line counter at the moment scanning of the token finished, i.e.
the resulting scanner state's line; a string literal with embedded newlines
therefore reports the line of its closing quote. -/
theorem C3_line_at_completion (st : ScanState) (t : Token) (st' : ScanState)
    (h : scanToken st = .ok (t, st')) : t.line = st'.line := by
  unfold scanToken at h
  cases hsk : scanKind { st with start := st.current } with
  | error e =>
    simp only [hsk] at h
    simp at h
  | ok kst1 =>
    obtain ⟨kind, st1⟩ := kst1
    simp only [hsk] at h
    cases hsl : utf8Slice st1.source st1.start st1.current with
    | none =>
      simp only [hsl] at h
      simp at h
    | some l =>
      simp only [hsl] at h
      simp only [Except.ok.injEq, Prod.mk.injEq] at h
      obtain ⟨h1, h2⟩ := h
      subst h1
      subst h2
      rfl

/-- Witness for `C3_line_at_completion` on the input `1`. -/
theorem C3_line_at_completion_witness :
    (⟨TokenType.NumberLiteral, "1", 1⟩ : Token).line =
      ({ source := ['1'], pos := 1, start := 1, current := 1, line := 1 } : ScanState).line :=
  C3_line_at_completion (initState "1") _ _ (by decide)


/-- `stringTok` fails only with the static `Unterminated string` message. -/
theorem stringTok_err {st : ScanState} {e : ScanErr}
    (h : stringTok st = .error e) : e = .msg "Unterminated string" := by
  unfold stringTok at h
  cases hs : stringScan (st.source.drop st.pos) with
  | none =>
    simp only [hs] at h
    simp only [Except.error.injEq] at h
    exact h.symm
  | some nk =>
    obtain ⟨n, k⟩ := nk
    simp only [hs] at h
    simp at h

/-- `scanKind` fails only with one of the two static error messages. -/
theorem scanKind_err {st : ScanState} {e : ScanErr}
    (hcur : st.current = utf8Len (st.source.take st.pos))
    (hstart : st.start = st.current)
    (h : scanKind st = .error e) :
    e = .msg "Unterminated string" ∨ e = .msg "Found unexpected character" := by
  unfold scanKind at h
  cases hc : st.source[st.pos]? with
  | none =>
    simp only [nextc, hc] at h
    simp at h
  | some c =>
    simp only [nextc_some hc] at h
    by_cases h1 : c = '('
    · rw [if_pos h1] at h
      simp at h
    rw [if_neg h1] at h
    by_cases h2 : c = ')'
    · rw [if_pos h2] at h
      simp at h
    rw [if_neg h2] at h
    by_cases h3 : c = '{'
    · rw [if_pos h3] at h
      simp at h
    rw [if_neg h3] at h
    by_cases h4 : c = '}'
    · rw [if_pos h4] at h
      simp at h
    rw [if_neg h4] at h
    by_cases h5 : c = ','
    · rw [if_pos h5] at h
      simp at h
    rw [if_neg h5] at h
    by_cases h6 : c = '.'
    · rw [if_pos h6] at h
      simp at h
    rw [if_neg h6] at h
    by_cases h7 : c = '-'
    · rw [if_pos h7] at h
      simp at h
    rw [if_neg h7] at h
    by_cases h8 : c = '+'
    · rw [if_pos h8] at h
      simp at h
    rw [if_neg h8] at h
    by_cases h9 : c = ';'
    · rw [if_pos h9] at h
      simp at h
    rw [if_neg h9] at h
    by_cases h10 : c = '*'
    · rw [if_pos h10] at h
      simp at h
    rw [if_neg h10] at h
    by_cases h11 : c = '!'
    · rw [if_pos h11] at h
      split at h <;> simp at h
    rw [if_neg h11] at h
    by_cases h12 : c = '='
    · rw [if_pos h12] at h
      split at h <;> simp at h
    rw [if_neg h12] at h
    by_cases h13 : c = '<'
    · rw [if_pos h13] at h
      split at h <;> simp at h
    rw [if_neg h13] at h
    by_cases h14 : c = '>'
    · rw [if_pos h14] at h
      split at h <;> simp at h
    rw [if_neg h14] at h
    by_cases h15 : c = '/'
    · rw [if_pos h15] at h
      split at h <;> simp at h
    rw [if_neg h15] at h
    by_cases h16 : c = '\n'
    · rw [if_pos h16] at h
      simp at h
    rw [if_neg h16] at h
    by_cases h17 : c = '"'
    · rw [if_pos h17] at h
      exact Or.inl (stringTok_err h)
    rw [if_neg h17] at h
    by_cases h18 : rustWhitespace c = true
    · rw [if_pos h18] at h
      simp at h
    rw [if_neg h18] at h
    by_cases h19 : isAsciiDigit c = true
    · rw [if_pos h19] at h
      split at h <;> simp at h
    rw [if_neg h19] at h
    by_cases h20 : isXidStart c = true
    · rw [if_pos h20] at h
      obtain ⟨hslice, -⟩ := scanKind_ident hcur hstart hc h20
      split at h
      · simp at h
      · rename_i hsl
        exact Option.noConfusion (hsl.symm.trans hslice)
    rw [if_neg h20] at h
    simp only [Except.error.injEq] at h
    exact Or.inr h.symm

/-- `scanToken` from a well-formed state fails only with one of the two
static error messages (in particular the slice extraction never panics). -/
theorem scanToken_err {st : ScanState} {e : ScanErr} (hInv : Inv st)
    (h : scanToken st = .error e) :
    e = .msg "Unterminated string" ∨ e = .msg "Found unexpected character" := by
  cases hsk : scanKind { st with start := st.current } with
  | error e2 =>
    unfold scanToken at h
    simp only [hsk] at h
    simp only [Except.error.injEq] at h
    obtain ⟨hP, hcur, k0, hk0le, hk0⟩ := hInv
    have hcur0 : ({ st with start := st.current } : ScanState).current =
        utf8Len (({ st with start := st.current } : ScanState).source.take
          ({ st with start := st.current } : ScanState).pos) := hcur
    subst h
    exact scanKind_err hcur0 rfl hsk
  | ok kst1 =>
    obtain ⟨kind, st1⟩ := kst1
    rw [scanToken_of_scanKind hInv hsk] at h
    simp at h

/-- The scan loop, started with enough fuel, fails only with one of the two
static error messages. -/
theorem scanLoop_err (fuel : Nat) (st : ScanState) (acc : List Token)
    (e : ScanErr) (hInv : Inv st)
    (hfuel : st.source.length - st.pos + 1 ≤ fuel)
    (h : scanLoop fuel st acc = .error e) :
    e = .msg "Unterminated string" ∨ e = .msg "Found unexpected character" := by
  induction fuel generalizing st acc with
  | zero => exact absurd hfuel (by omega)
  | succ f ih =>
    simp only [scanLoop] at h
    cases hstep : scanToken st with
    | error e2 =>
      simp only [hstep] at h
      simp only [Except.error.injEq] at h
      subst h
      exact scanToken_err hInv hstep
    | ok tst =>
      obtain ⟨t, st'⟩ := tst
      simp only [hstep] at h
      obtain ⟨hInv', hsrc', hle1, hle2, -, -, -, hEofIff, hEofCase, hlt, -⟩ :=
        scanToken_ok hInv hstep
      have hsrc'' : st'.source = st.source := hsrc'
      by_cases hWS : t.kind = .Whitespace
      · rw [if_pos hWS] at h
        have hEofNe : t.kind ≠ .Eof := by rw [hWS]; decide
        have hprog := hlt hEofNe
        exact ih st' acc hInv' (by rw [hsrc'']; omega) h
      · rw [if_neg hWS] at h
        by_cases hEof : t.kind = .Eof
        · rw [if_pos hEof] at h
          simp at h
        · rw [if_neg hEof] at h
          have hprog := hlt hEof
          exact ih st' (acc ++ [t]) hInv' (by rw [hsrc'']; omega) h


/-- C2 counterexample: an unrecognized backtick on line 1 and an unrecognized
at-sign on line 2 produce the very same error value, so the returned error
carries neither the offending character nor the line. -/
theorem C2_counterexample :
    scanTokens "`" = .error (.msg "Found unexpected character") ∧
    scanTokens "\n@" = .error (.msg "Found unexpected character") ∧
    scanTokens "`" = scanTokens "\n@" :=
  ⟨by decide, by decide, by decide⟩

/-- C2 (amended): a scan fails only with one of the two static errors
`Unterminated string` and `Found unexpected character` (it never panics:
the fuel artefact and the slice panic are unreachable), and both do occur;
the error value carries no character or line information. -/
theorem C2_lex_errors :
    (∀ s e, scanTokens s = .error e →
      e = .msg "Unterminated string" ∨ e = .msg "Found unexpected character") ∧
    scanTokens "\"abc" = .error (.msg "Unterminated string") ∧
    scanTokens "`" = .error (.msg "Found unexpected character") := by
  refine ⟨?_, by decide, by decide⟩
  intro s e h
  have h' : scanLoop (s.length + 1) (initState s) [] = .error e := h
  refine scanLoop_err (s.length + 1) (initState s) [] e (initState_inv s) ?_ h'
  show s.data.length - 0 + 1 ≤ s.data.length + 1
  omega

/-- Witness for `C2_lex_errors` on the unterminated string input. -/
theorem C2_lex_errors_witness :
    ScanErr.msg "Unterminated string" = .msg "Unterminated string" ∨
    ScanErr.msg "Unterminated string" = .msg "Found unexpected character" :=
  C2_lex_errors.1 "\"abc" (.msg "Unterminated string") (by decide)

/-- The scanner invariant holds, with `start` resynchronized to `current`,
in every state reachable from an initial state by `scanToken` steps. -/
theorem reachable_inv (s : String) (st : ScanState)
    (h : Reachable (initState s) st) : Inv st ∧ st.start = st.current := by
  induction h with
  | refl => exact ⟨initState_inv s, rfl⟩
  | step hreach hstep ih =>
    obtain ⟨hInv, -⟩ := ih
    obtain ⟨hInv', -, -, -, hse, -⟩ := scanToken_ok hInv hstep
    exact ⟨hInv', hse⟩

/-- Byte length of a prefix is monotone in its character count. -/
theorem utf8Len_take_mono (l : List Char) {p q : Nat} (hpq : p ≤ q) :
    utf8Len (l.take p) ≤ utf8Len (l.take q) := by
  have h1 : l.take p = (l.take q).take p := by
    rw [List.take_take, Nat.min_eq_left hpq]
  rw [h1]
  exact utf8Len_take_le (l.take q) p

/-- Byte length of a prefix is strictly monotone in its character count,
within the list: a nonempty character range occupies at least one byte. -/
theorem utf8Len_take_strict_mono (l : List Char) {p q : Nat} (hpq : p < q)
    (hq : q ≤ l.length) :
    utf8Len (l.take p) < utf8Len (l.take q) := by
  have hq2 : q = p + (q - p) := by omega
  rw [hq2, utf8Len_take_add]
  have hlen : (l.drop p).length = l.length - p := List.length_drop _ _
  cases hd : l.drop p with
  | nil =>
    exfalso
    rw [hd] at hlen
    simp only [List.length_nil] at hlen
    omega
  | cons a r =>
    rw [show q - p = (q - p - 1) + 1 from by omega]
    simp only [List.take_succ_cons, utf8Len]
    have hsz := Char.utf8Size_pos a
    omega

/-- C10: in every reachable scanner state the byte indices `start` and
`current` lie on UTF-8 character boundaries of the source with
`start ≤ current ≤` the total byte length; moreover one classification step
from such a state reaches exactly the mid-token states at which `scan_token`
slices `source[start..current]` for keyword lookup and for the token's
lexeme: there both indices are still boundaries, the range is nonempty for
every real token, the slice succeeds, and neither `scanKind` nor `scanToken`
can fail with a slice panic. -/
theorem C10_utf8_boundaries (s : String) (st : ScanState)
    (h : Reachable (initState s) st) :
    (st.start ≤ st.current ∧ st.current ≤ utf8Len st.source ∧
      (charIdxAt st.source st.start).isSome ∧
      (charIdxAt st.source st.current).isSome) ∧
    (∀ k st1, scanKind { st with start := st.current } = .ok (k, st1) →
      st1.start ≤ st1.current ∧ st1.current ≤ utf8Len st1.source ∧
      (charIdxAt st1.source st1.start).isSome ∧
      (charIdxAt st1.source st1.current).isSome ∧
      (utf8Slice st1.source st1.start st1.current).isSome ∧
      (k ≠ .Eof → st1.start < st1.current)) ∧
    scanKind { st with start := st.current } ≠ .error .slicePanic ∧
    scanToken st ≠ .error .slicePanic := by
  obtain ⟨⟨hP, hcur, k0, hk0le, hk0⟩, hse⟩ := reachable_inv s st h
  have hP0 : ({ st with start := st.current } : ScanState).pos ≤
      ({ st with start := st.current } : ScanState).source.length := hP
  have hcur0 : ({ st with start := st.current } : ScanState).current =
      utf8Len (({ st with start := st.current } : ScanState).source.take
        ({ st with start := st.current } : ScanState).pos) := hcur
  refine ⟨⟨le_of_eq hse, ?_, ?_, ?_⟩, ?_, ?_, ?_⟩
  · rw [hcur]
    exact utf8Len_take_le st.source st.pos
  · rw [hse, hcur, charIdxAt_utf8Len st.source st.pos hP]
    rfl
  · rw [hcur, charIdxAt_utf8Len st.source st.pos hP]
    rfl
  · intro k st1 hsk
    obtain ⟨hsrc1, hstart1, hple, hple2, hcur1, hEofIff, hEofEq, hlt, -⟩ :=
      scanKind_ok hP0 hcur0 rfl hsk
    have hsrc1' : st1.source = st.source := hsrc1
    have hstart1' : st1.start = st.current := hstart1
    have hple' : st.pos ≤ st1.pos := hple
    have hple2' : st1.pos ≤ st.source.length := hple2
    have hcur1' : st1.current = utf8Len (st.source.take st1.pos) := hcur1
    refine ⟨?_, ?_, ?_, ?_, ?_, ?_⟩
    · rw [hstart1', hcur1', hcur]
      exact utf8Len_take_mono st.source hple'
    · rw [hsrc1', hcur1']
      exact utf8Len_take_le st.source st1.pos
    · rw [hsrc1', hstart1', hcur, charIdxAt_utf8Len st.source st.pos hP]
      rfl
    · rw [hsrc1', hcur1', charIdxAt_utf8Len st.source st1.pos hple2']
      rfl
    · rw [hsrc1', hstart1', hcur1', hcur,
        utf8Slice_take_drop st.source st.pos st1.pos hple' hple2']
      rfl
    · intro hkE
      have hlt' : st.pos < st1.pos := hlt hkE
      rw [hstart1', hcur1', hcur]
      exact utf8Len_take_strict_mono st.source hlt' hple2'
  · intro hbad
    rcases scanKind_err hcur0 rfl hbad with h1 | h1 <;> simp at h1
  · intro hbad
    rcases scanToken_err ⟨hP, hcur, k0, hk0le, hk0⟩ hbad with h1 | h1 <;> simp at h1

/-- Witness for `C10_utf8_boundaries`: the mid-token state of the two-byte
string literal `"é"`, where the lexeme slice `source[0..4]` is about to be
taken: a nonempty multi-byte range whose extraction succeeds. -/
theorem C10_utf8_boundaries_witness :
    ({ source := ['\"', 'é', '\"'], pos := 3, start := 0, current := 4, line := 1 } : ScanState).start ≤ ({ source := ['\"', 'é', '\"'], pos := 3, start := 0, current := 4, line := 1 } : ScanState).current ∧
    ({ source := ['\"', 'é', '\"'], pos := 3, start := 0, current := 4, line := 1 } : ScanState).current ≤ utf8Len ({ source := ['\"', 'é', '\"'], pos := 3, start := 0, current := 4, line := 1 } : ScanState).source ∧
    (charIdxAt ({ source := ['\"', 'é', '\"'], pos := 3, start := 0, current := 4, line := 1 } : ScanState).source ({ source := ['\"', 'é', '\"'], pos := 3, start := 0, current := 4, line := 1 } : ScanState).start).isSome ∧
    (charIdxAt ({ source := ['\"', 'é', '\"'], pos := 3, start := 0, current := 4, line := 1 } : ScanState).source ({ source := ['\"', 'é', '\"'], pos := 3, start := 0, current := 4, line := 1 } : ScanState).current).isSome ∧
    (utf8Slice ({ source := ['\"', 'é', '\"'], pos := 3, start := 0, current := 4, line := 1 } : ScanState).source ({ source := ['\"', 'é', '\"'], pos := 3, start := 0, current := 4, line := 1 } : ScanState).start
      ({ source := ['\"', 'é', '\"'], pos := 3, start := 0, current := 4, line := 1 } : ScanState).current).isSome ∧
    (TokenType.StringLiteral ≠ TokenType.Eof →
      ({ source := ['\"', 'é', '\"'], pos := 3, start := 0, current := 4, line := 1 } : ScanState).start < ({ source := ['\"', 'é', '\"'], pos := 3, start := 0, current := 4, line := 1 } : ScanState).current) :=
  (C10_utf8_boundaries "\"é\"" (initState "\"é\"") (Reachable.refl _)).2.1
    .StringLiteral ({ source := ['\"', 'é', '\"'], pos := 3, start := 0, current := 4, line := 1 } : ScanState) (by decide)

/-- C8: on any input whose initial maximal digit run is followed by a `.`
that is not followed by a digit, the scanner ends the `NumberLiteral` token
at the last digit of the run, and the next `scanToken` call consumes the `.`
as a `Dot` token. -/
theorem C8_decimal_lookahead (c : Char) (r1 r : List Char)
    (hcd : isAsciiDigit c = true) (hr : r1.all isAsciiDigit = true)
    (hno : ∀ a ∈ r.head?, isAsciiDigit a = false) :
    ∃ (st1 st2 : ScanState) (line1 line2 : Int),
      scanToken (initState (String.mk (c :: (r1 ++ '.' :: r)))) =
        .ok (⟨.NumberLiteral, String.mk (c :: r1), line1⟩, st1) ∧
      scanToken st1 = .ok (⟨.Dot, String.mk ['.'], line2⟩, st2) := by
  have hrun : (r1 ++ '.' :: r).takeWhile isAsciiDigit = r1 :=
    takeWhile_all_head _ _ _ (fun a ha => List.all_eq_true.mp hr a ha)
      (by intro a ha; simp at ha; subst ha; decide)
  have hc' : (initState (String.mk (c :: (r1 ++ '.' :: r)))).source[(initState (String.mk (c :: (r1 ++ '.' :: r)))).pos]? = some c := by
    show (c :: (r1 ++ '.' :: r))[0]? = some c
    simp
  have hsk0 := scanKind_digit_eval hc' hcd
  have hidx1 : (c :: (r1 ++ '.' :: r))[0 + 1 + r1.length]? = some '.' := by
    rw [show c :: (r1 ++ '.' :: r) = (c :: r1) ++ ('.' :: r) from by simp]
    rw [show 0 + 1 + r1.length = (c :: r1).length + 0 from by
      simp only [List.length_cons]; omega]
    rw [getElem?_append_len]
    simp
  have hidx2 : (c :: (r1 ++ '.' :: r))[0 + 1 + r1.length + 1]? = r.head? := by
    rw [show c :: (r1 ++ '.' :: r) = (c :: r1 ++ ['.']) ++ r from by simp]
    rw [show 0 + 1 + r1.length + 1 = (c :: r1 ++ ['.']).length + 0 from by
      simp only [List.length_append, List.length_cons, List.length_nil]; omega]
    rw [getElem?_append_len]
    cases r with
    | nil => rfl
    | cons a as => simp
  have hdp : decimalPoint (nextWhile { initState (String.mk (c :: (r1 ++ '.' :: r))) with
      pos := (initState (String.mk (c :: (r1 ++ '.' :: r)))).pos + 1
      current := (initState (String.mk (c :: (r1 ++ '.' :: r)))).current + c.utf8Size } isAsciiDigit) = false := by
    show (((c :: (r1 ++ '.' :: r))[0 + 1 + ((r1 ++ '.' :: r).takeWhile isAsciiDigit).length]? == some '.') &&
        (((c :: (r1 ++ '.' :: r))[0 + 1 + ((r1 ++ '.' :: r).takeWhile isAsciiDigit).length + 1]?).filter isAsciiDigit).isSome) = false
    rw [hrun, hidx1, hidx2]
    cases hhead : r.head? with
    | none => rfl
    | some a =>
      have hfa : isAsciiDigit a = false := hno a (by rw [hhead]; rfl)
      simp [Option.filter, hfa]
  rw [if_neg (by rw [hdp]; simp)] at hsk0
  have hBpos : (nextWhile { initState (String.mk (c :: (r1 ++ '.' :: r))) with
      pos := (initState (String.mk (c :: (r1 ++ '.' :: r)))).pos + 1
      current := (initState (String.mk (c :: (r1 ++ '.' :: r)))).current + c.utf8Size } isAsciiDigit).pos = r1.length + 1 := by
    show 0 + 1 + ((r1 ++ '.' :: r).takeWhile isAsciiDigit).length = r1.length + 1
    rw [hrun]
    omega
  have h1 := @scanToken_of_scanKind (initState (String.mk (c :: (r1 ++ '.' :: r)))) _ _
    (initState_inv (String.mk (c :: (r1 ++ '.' :: r)))) hsk0
  have hlex : ((initState (String.mk (c :: (r1 ++ '.' :: r)))).source.take
      (nextWhile { initState (String.mk (c :: (r1 ++ '.' :: r))) with
      pos := (initState (String.mk (c :: (r1 ++ '.' :: r)))).pos + 1
      current := (initState (String.mk (c :: (r1 ++ '.' :: r)))).current + c.utf8Size } isAsciiDigit).pos).drop (initState (String.mk (c :: (r1 ++ '.' :: r)))).pos = c :: r1 := by
    rw [hBpos]
    show (c :: (r1 ++ '.' :: r)).take (r1.length + 1) = c :: r1
    have hsplitL : c :: (r1 ++ '.' :: r) = (c :: r1) ++ ('.' :: r) := by
      simp
    rw [hsplitL]
    exact List.take_left' (by simp only [List.length_cons])
  rw [hlex] at h1
  obtain ⟨hInv1, -, -, -, -, -, -, -, -, -, -⟩ :=
    scanToken_ok (initState_inv (String.mk (c :: (r1 ++ '.' :: r)))) h1
  have hdotst1 : ({ nextWhile { initState (String.mk (c :: (r1 ++ '.' :: r))) with
      pos := (initState (String.mk (c :: (r1 ++ '.' :: r)))).pos + 1
      current := (initState (String.mk (c :: (r1 ++ '.' :: r)))).current + c.utf8Size } isAsciiDigit with
      start := (nextWhile { initState (String.mk (c :: (r1 ++ '.' :: r))) with
      pos := (initState (String.mk (c :: (r1 ++ '.' :: r)))).pos + 1
      current := (initState (String.mk (c :: (r1 ++ '.' :: r)))).current + c.utf8Size } isAsciiDigit).current } : ScanState).source[({ nextWhile { initState (String.mk (c :: (r1 ++ '.' :: r))) with
      pos := (initState (String.mk (c :: (r1 ++ '.' :: r)))).pos + 1
      current := (initState (String.mk (c :: (r1 ++ '.' :: r)))).current + c.utf8Size } isAsciiDigit with
      start := (nextWhile { initState (String.mk (c :: (r1 ++ '.' :: r))) with
      pos := (initState (String.mk (c :: (r1 ++ '.' :: r)))).pos + 1
      current := (initState (String.mk (c :: (r1 ++ '.' :: r)))).current + c.utf8Size } isAsciiDigit).current } : ScanState).pos]? = some '.' := by
    show (c :: (r1 ++ '.' :: r))[0 + 1 + ((r1 ++ '.' :: r).takeWhile isAsciiDigit).length]? = some '.'
    rw [hrun]
    exact hidx1
  have hskD := scanKind_dot_eval hdotst1
  have h2 := @scanToken_of_scanKind ({ nextWhile { initState (String.mk (c :: (r1 ++ '.' :: r))) with
      pos := (initState (String.mk (c :: (r1 ++ '.' :: r)))).pos + 1
      current := (initState (String.mk (c :: (r1 ++ '.' :: r)))).current + c.utf8Size } isAsciiDigit with
      start := (nextWhile { initState (String.mk (c :: (r1 ++ '.' :: r))) with
      pos := (initState (String.mk (c :: (r1 ++ '.' :: r)))).pos + 1
      current := (initState (String.mk (c :: (r1 ++ '.' :: r)))).current + c.utf8Size } isAsciiDigit).current } : ScanState) _ _ hInv1 hskD
  have hlex2 : (({ nextWhile { initState (String.mk (c :: (r1 ++ '.' :: r))) with
      pos := (initState (String.mk (c :: (r1 ++ '.' :: r)))).pos + 1
      current := (initState (String.mk (c :: (r1 ++ '.' :: r)))).current + c.utf8Size } isAsciiDigit with
      start := (nextWhile { initState (String.mk (c :: (r1 ++ '.' :: r))) with
      pos := (initState (String.mk (c :: (r1 ++ '.' :: r)))).pos + 1
      current := (initState (String.mk (c :: (r1 ++ '.' :: r)))).current + c.utf8Size } isAsciiDigit).current } : ScanState).source.take
      ({ ({ nextWhile { initState (String.mk (c :: (r1 ++ '.' :: r))) with
      pos := (initState (String.mk (c :: (r1 ++ '.' :: r)))).pos + 1
      current := (initState (String.mk (c :: (r1 ++ '.' :: r)))).current + c.utf8Size } isAsciiDigit with
      start := (nextWhile { initState (String.mk (c :: (r1 ++ '.' :: r))) with
      pos := (initState (String.mk (c :: (r1 ++ '.' :: r)))).pos + 1
      current := (initState (String.mk (c :: (r1 ++ '.' :: r)))).current + c.utf8Size } isAsciiDigit).current } : ScanState) with
      pos := ({ nextWhile { initState (String.mk (c :: (r1 ++ '.' :: r))) with
      pos := (initState (String.mk (c :: (r1 ++ '.' :: r)))).pos + 1
      current := (initState (String.mk (c :: (r1 ++ '.' :: r)))).current + c.utf8Size } isAsciiDigit with
      start := (nextWhile { initState (String.mk (c :: (r1 ++ '.' :: r))) with
      pos := (initState (String.mk (c :: (r1 ++ '.' :: r)))).pos + 1
      current := (initState (String.mk (c :: (r1 ++ '.' :: r)))).current + c.utf8Size } isAsciiDigit).current } : ScanState).pos + 1
      current := ({ nextWhile { initState (String.mk (c :: (r1 ++ '.' :: r))) with
      pos := (initState (String.mk (c :: (r1 ++ '.' :: r)))).pos + 1
      current := (initState (String.mk (c :: (r1 ++ '.' :: r)))).current + c.utf8Size } isAsciiDigit with
      start := (nextWhile { initState (String.mk (c :: (r1 ++ '.' :: r))) with
      pos := (initState (String.mk (c :: (r1 ++ '.' :: r)))).pos + 1
      current := (initState (String.mk (c :: (r1 ++ '.' :: r)))).current + c.utf8Size } isAsciiDigit).current } : ScanState).current + '.'.utf8Size } : ScanState).pos).drop ({ nextWhile { initState (String.mk (c :: (r1 ++ '.' :: r))) with
      pos := (initState (String.mk (c :: (r1 ++ '.' :: r)))).pos + 1
      current := (initState (String.mk (c :: (r1 ++ '.' :: r)))).current + c.utf8Size } isAsciiDigit with
      start := (nextWhile { initState (String.mk (c :: (r1 ++ '.' :: r))) with
      pos := (initState (String.mk (c :: (r1 ++ '.' :: r)))).pos + 1
      current := (initState (String.mk (c :: (r1 ++ '.' :: r)))).current + c.utf8Size } isAsciiDigit).current } : ScanState).pos = ['.'] := by
    show ((c :: (r1 ++ '.' :: r)).take (0 + 1 + ((r1 ++ '.' :: r).takeWhile isAsciiDigit).length + 1)).drop (0 + 1 + ((r1 ++ '.' :: r).takeWhile isAsciiDigit).length) = ['.']
    rw [hrun]
    rw [show 0 + 1 + r1.length + 1 = 0 + 1 + r1.length + (1 + 0) from rfl]
    rw [consumed_cons 0 hidx1]
    rfl
  rw [hlex2] at h2
  exact ⟨_, _, _, _, h1, h2⟩

/-- Witness for `C8_decimal_lookahead` on the input `123.` . -/
theorem C8_decimal_lookahead_witness :
    ∃ (st1 st2 : ScanState) (line1 line2 : Int),
      scanToken (initState (String.mk ('1' :: (['2', '3'] ++ '.' :: [])))) =
        .ok (⟨.NumberLiteral, String.mk ('1' :: ['2', '3']), line1⟩, st1) ∧
      scanToken st1 = .ok (⟨.Dot, String.mk ['.'], line2⟩, st2) :=
  C8_decimal_lookahead '1' ['2', '3'] [] (by decide) (by decide)
    (by intro a ha; simp at ha)

end Rox